import Mathlib

/-!
Verification development for the JadeGate skill protocol (`jade_core`).

This file gives a shallow embedding, in Lean 4, of the parts of the
repository that the checked properties talk about:

* `models.py`   — the skill data model and its identity hash;
* `validator.py` — the required-field structural check of `validate_dict`;
* `security.py` — executable-code / dangerous-command pattern scanning;
* `dag.py`      — Kahn topological ordering of execution DAGs;
* `optimizer.py` — the security-policy merge of multi-skill composition;
* `registry.py` — registration, attestations and Bayesian confidence;
* `executor.py` — the pre-flight verification step of `execute`.

Python `dict`s over string keys are embedded as association lists or as
total functions (with a comment wherever Python would instead raise
`KeyError`), Python exceptions as an `Except`/error-sum discipline,
machine/big integers as `Int`/`Nat` (Python ints are unbounded), and
Python `float` arithmetic of the registry as exact rational arithmetic
(the registry formulas involve one division of small integers).
Wall-clock readings (`time.time()`) are passed in as explicit parameters.
-/

namespace JadeGate

/-- Python exceptions that the embedded code can raise. -/
inductive PyError where
  | typeError (msg : String) : PyError
  | attributeError (msg : String) : PyError
  | valueError (msg : String) : PyError
deriving DecidableEq, Repr

/-- JSON values, as produced by `json.load`.  Numbers are restricted to
integers: every number occurring in the repository's skill documents and
in the fields the claims mention is an integer, and Python float `repr`
output is outside the scope of this embedding. -/
inductive Json where
  | null : Json
  | bool (b : Bool) : Json
  | num (n : Int) : Json
  | str (s : String) : Json
  | arr (items : List Json) : Json
  | obj (fields : List (String × Json)) : Json

namespace Json

/-- `d.get(key)` on an embedded JSON object (first binding wins, as in a
Python dict built without duplicate keys). -/
def get? : Json → String → Option Json
  | .obj fields, key => fields.lookup key
  | _, _ => none

/-- `d.get(key, default)`. -/
def getD (j : Json) (key : String) (dflt : Json) : Json :=
  (j.get? key).getD dflt

/-- `key in d`. -/
def hasKey (j : Json) (key : String) : Bool :=
  (j.get? key).isSome

end Json

/-! ### UTF-8 and hex encoding

Bytes are `Nat`s below 256.  `utf8Bytes` is the standard UTF-8 encoding
used by Python's `str.encode("utf-8")`. -/

/-- UTF-8 encoding of a single code point. -/
def utf8Char (n : Nat) : List Nat :=
  if n < 0x80 then [n]
  else if n < 0x800 then
    [0xC0 + n / 64, 0x80 + n % 64]
  else if n < 0x10000 then
    [0xE0 + n / 4096, 0x80 + (n / 64) % 64, 0x80 + n % 64]
  else
    [0xF0 + n / 262144, 0x80 + (n / 4096) % 64, 0x80 + (n / 64) % 64, 0x80 + n % 64]

/-- UTF-8 encoding of a string, as a list of byte values. -/
def utf8Bytes (s : String) : List Nat :=
  s.data.flatMap (fun c => utf8Char c.toNat)

/-- One lowercase hex digit. -/
def hexDigit (n : Nat) : Char :=
  if n < 10 then Char.ofNat (48 + n) else Char.ofNat (87 + n)

/-- Two-digit lowercase hex form of a byte. -/
def hexByte (n : Nat) : List Char :=
  [hexDigit (n / 16 % 16), hexDigit (n % 16)]

/-- Lowercase hex string of a byte list (Python's `.hexdigest()`). -/
def hexString (bytes : List Nat) : String :=
  ⟨bytes.flatMap hexByte⟩

/-! ### SHA-256

A direct executable implementation of FIPS 180-4 SHA-256 over byte
lists, used by `hashlib.sha256` call sites in `models.py`,
`validator.py` and `crypto.py`.  32-bit words are `Nat`s reduced
mod `2 ^ 32`. -/

/-- Truncate to a 32-bit word. -/
def w32 (n : Nat) : Nat := n % 4294967296

/-- 32-bit right rotation. -/
def rotr32 (k x : Nat) : Nat :=
  w32 ((x >>> k) ||| (x <<< (32 - k)))

/-- The 64 SHA-256 round constants. -/
def sha256K : List Nat :=
  [1116352408, 1899447441, 3049323471, 3921009573, 961987163, 1508970993,
   2453635748, 2870763221, 3624381080, 310598401, 607225278, 1426881987,
   1925078388, 2162078206, 2614888103, 3248222580, 3835390401, 4022224774,
   264347078, 604807628, 770255983, 1249150122, 1555081692, 1996064986,
   2554220882, 2821834349, 2952996808, 3210313671, 3336571891, 3584528711,
   113926993, 338241895, 666307205, 773529912, 1294757372, 1396182291,
   1695183700, 1986661051, 2177026350, 2456956037, 2730485921, 2820302411,
   3259730800, 3345764771, 3516065817, 3600352804, 4094571909, 275423344,
   430227734, 506948616, 659060556, 883997877, 958139571, 1322822218,
   1537002063, 1747873779, 1955562222, 2024104815, 2227730452, 2361852424,
   2428436474, 2756734187, 3204031479, 3329325298]

/-- The SHA-256 initial hash value. -/
def sha256H0 : List Nat :=
  [1779033703, 3144134277, 1013904242, 2773480762,
   1359893119, 2600822924, 528734635, 1541459225]

/-- Big-endian split of a `Nat` into `k` bytes. -/
def beBytes (k n : Nat) : List Nat :=
  match k with
  | 0 => []
  | k + 1 => beBytes k (n / 256) ++ [n % 256]

/-- SHA-256 message padding: append `0x80`, zeros and the 64-bit
big-endian bit length, reaching a multiple of 64 bytes. -/
def sha256Pad (msg : List Nat) : List Nat :=
  let len := msg.length
  let zeros := (64 - (len + 9) % 64) % 64
  msg ++ [0x80] ++ List.replicate zeros 0 ++ beBytes 8 (len * 8)

/-- Collect groups of four bytes into big-endian 32-bit words. -/
def bytesToWords : List Nat → List Nat
  | b0 :: b1 :: b2 :: b3 :: rest =>
      (((b0 * 256 + b1) * 256 + b2) * 256 + b3) :: bytesToWords rest
  | _ => []

/-- Extend 16 block words to the 64-entry message schedule. -/
def sha256Schedule (ws : List Nat) (t : Nat) : List Nat :=
  match t with
  | 0 => ws
  | t + 1 =>
      let ws := sha256Schedule ws t
      let i := ws.length
      let wa := ws.getD (i - 16) 0
      let wb := ws.getD (i - 15) 0
      let wc := ws.getD (i - 7) 0
      let wd := ws.getD (i - 2) 0
      let s0 := w32 ((rotr32 7 wb) ^^^ (rotr32 18 wb) ^^^ (wb >>> 3))
      let s1 := w32 ((rotr32 17 wd) ^^^ (rotr32 19 wd) ^^^ (wd >>> 10))
      ws ++ [w32 (wa + s0 + wc + s1)]

/-- One SHA-256 round on the eight working variables. -/
def sha256Round (st : List Nat) (kw : Nat) : List Nat :=
  match st with
  | [a, b, c, d, e, f, g, h] =>
      let s1 := w32 ((rotr32 6 e) ^^^ (rotr32 11 e) ^^^ (rotr32 25 e))
      let ch := w32 ((e &&& f) ^^^ ((4294967295 - e) &&& g))
      let t1 := w32 (h + s1 + ch + kw)
      let s0 := w32 ((rotr32 2 a) ^^^ (rotr32 13 a) ^^^ (rotr32 22 a))
      let mj := w32 ((a &&& b) ^^^ (a &&& c) ^^^ (b &&& c))
      let t2 := w32 (s0 + mj)
      [w32 (t1 + t2), a, b, c, w32 (d + t1), e, f, g]
  | st => st

/-- Compress one 64-byte block into the running hash state. -/
def sha256Compress (h : List Nat) (block : List Nat) : List Nat :=
  let ws := sha256Schedule (bytesToWords block) 48
  let kws := List.zipWith (fun k w => w32 (k + w)) sha256K ws
  let st := kws.foldl sha256Round h
  List.zipWith (fun x y => w32 (x + y)) h st

/-- Split a byte list into 64-byte blocks (fuel-driven structural
recursion; `fuel = l.length` always suffices since each step consumes a
nonempty prefix). -/
def blocks64Fuel : Nat → List Nat → List (List Nat)
  | 0, _ => []
  | _, [] => []
  | fuel + 1, l => l.take 64 :: blocks64Fuel fuel (l.drop 64)

/-- Split a byte list into 64-byte blocks. -/
def blocks64 (l : List Nat) : List (List Nat) :=
  blocks64Fuel l.length l

/-- SHA-256 digest of a byte list, as 32 bytes. -/
def sha256Bytes (msg : List Nat) : List Nat :=
  let final := (blocks64 (sha256Pad msg)).foldl sha256Compress sha256H0
  final.flatMap (beBytes 4)

/-- SHA-256 hex digest of a byte list (`hashlib.sha256(x).hexdigest()`). -/
def sha256Hex (msg : List Nat) : String :=
  hexString (sha256Bytes msg)

/-! ### `json.dumps`

Model of Python's `json.dumps` for the embedded `Json` values, with the
`sort_keys` flag and explicit item/key separators.  With `indent=None`
Python uses separators `", "` and `": "` unless the `separators`
argument overrides them.  `ensure_ascii=False` keeps non-ASCII
characters raw and escapes exactly `"` `\` and the C0 control
characters (with short escapes for backspace, form feed, newline,
carriage return and tab). -/

/-- JSON string escaping of one character (`ensure_ascii=False`). -/
def jsonEscapeChar (c : Char) : List Char :=
  if c = '"' then ['\\', '"']
  else if c = '\\' then ['\\', '\\']
  else if c.toNat = 8 then ['\\', 'b']
  else if c.toNat = 12 then ['\\', 'f']
  else if c = '\n' then ['\\', 'n']
  else if c = '\r' then ['\\', 'r']
  else if c = '\t' then ['\\', 't']
  else if c.toNat < 32 then ['\\', 'u', '0', '0', hexDigit (c.toNat / 16), hexDigit (c.toNat % 16)]
  else [c]

/-- A JSON string literal: quoted and escaped. -/
def jsonQuote (s : String) : String :=
  "\"" ++ ⟨s.data.flatMap jsonEscapeChar⟩ ++ "\""

/-- Python string `<=`: lexicographic comparison by code point. -/
def charsLe : List Char → List Char → Bool
  | [], _ => true
  | _ :: _, [] => false
  | a :: as, b :: bs =>
      if a.toNat < b.toNat then true
      else if b.toNat < a.toNat then false
      else charsLe as bs

/-- Python string `<=` on `String`. -/
def pyStrLe (a b : String) : Bool := charsLe a.data b.data

/-- Stable ordered insert by key (used to model `sorted`, which is
stable; on Python-reachable inputs object keys are distinct anyway). -/
def insertByKey (p : String × String) : List (String × String) → List (String × String)
  | [] => [p]
  | q :: rest => if pyStrLe p.1 q.1 then p :: q :: rest else q :: insertByKey p rest

/-- Insertion sort of `(key, rendered)` pairs by key, modelling
`sorted(d.items())` as performed by `sort_keys=True`. -/
def sortPairsByKey : List (String × String) → List (String × String)
  | [] => []
  | p :: rest => insertByKey p (sortPairsByKey rest)

mutual

/-- `json.dumps(j, sort_keys=sortKeys, separators=(itemSep, keySep),
ensure_ascii=False)`.  Object fields are rendered first and the
`(key, rendered value)` pairs sorted afterwards; this commutes with
Python's order (sort keys, then render) because rendering a value never
changes its key. -/
def dumps (sortKeys : Bool) (itemSep keySep : String) : Json → String
  | .null => "null"
  | .bool true => "true"
  | .bool false => "false"
  | .num n => toString n
  | .str s => jsonQuote s
  | .arr items => "[" ++ String.intercalate itemSep (dumpsList sortKeys itemSep keySep items) ++ "]"
  | .obj fields =>
      let rendered := dumpsPairs sortKeys itemSep keySep fields
      let ordered := if sortKeys then sortPairsByKey rendered else rendered
      "\x7b" ++ String.intercalate itemSep (ordered.map fun p => jsonQuote p.1 ++ keySep ++ p.2) ++ "\x7d"
termination_by structural j => j

/-- Render each element of a JSON array. -/
def dumpsList (sortKeys : Bool) (itemSep keySep : String) : List Json → List String
  | [] => []
  | j :: rest => dumps sortKeys itemSep keySep j :: dumpsList sortKeys itemSep keySep rest
termination_by structural l => l

/-- Render each field value of a JSON object, keeping its key. -/
def dumpsPairs (sortKeys : Bool) (itemSep keySep : String) :
    List (String × Json) → List (String × String)
  | [] => []
  | (k, v) :: rest =>
      (k, dumps sortKeys itemSep keySep v) :: dumpsPairs sortKeys itemSep keySep rest
termination_by structural l => l

end

/-! ### `models.py` — the skill data model -/

/-- `models.SandboxLevel`. -/
inductive SandboxLevel where
  | strict | standard | permissive
deriving DecidableEq, Repr

/-- The `.value` of a `SandboxLevel` member. -/
def SandboxLevel.value : SandboxLevel → String
  | .strict => "strict"
  | .standard => "standard"
  | .permissive => "permissive"

/-- `models.ValidationSeverity`. -/
inductive ValidationSeverity where
  | error | warning | info
deriving DecidableEq, Repr

/-- `models.ValidationIssue`: the dataclass has exactly the four fields
`severity`, `code`, `message`, `path` (with `path` defaulting to `""`).
It has no `hint` field. -/
structure ValidationIssue where
  severity : ValidationSeverity
  code : String
  message : String
  path : String := ""
deriving DecidableEq, Repr

/-- Constructing a `ValidationIssue` the way `validator.py` does, with a
keyword argument `hint=...`: the dataclass accepts only
`severity`/`code`/`message`/`path`, so passing `hint` raises
`TypeError` in Python.  Construction without a hint succeeds. -/
def mkValidationIssue (severity : ValidationSeverity) (code message path : String)
    (hint : Option String) : Except PyError ValidationIssue :=
  match hint with
  | some _ => .error (.typeError
      "ValidationIssue.__init__ got an unexpected keyword argument hint")
  | none => .ok { severity := severity, code := code, message := message, path := path }

/-- `models.ValidationResult` (the `checked_at` wall-clock field is an
explicit rational parameter wherever it is set). -/
structure ValidationResult where
  valid : Bool
  issues : List ValidationIssue := []
  skill_hash : String := ""
  checked_at : ℚ := 0
deriving DecidableEq, Repr

/-- `models.ConditionOperator`. -/
inductive ConditionOperator where
  | equals | contains | matches | greater_than | less_than
  | inOp | not_in | exists_ | not_contains
deriving DecidableEq, Repr

/-- `models.TriggerType`. -/
inductive TriggerType where
  | error_code | task_intent | environment_state | manual | mcp_call
  | direct_call | http_request | scheduled | event
deriving DecidableEq, Repr

/-- `models.TriggerCondition`. -/
structure TriggerCondition where
  field : String
  operator : ConditionOperator
  value : Json

/-- `models.Trigger`. -/
structure Trigger where
  type : TriggerType
  conditions : List TriggerCondition

/-- `models.DAGNode`; `params` is an arbitrary JSON document. -/
structure DAGNode where
  id : String
  action : String
  params : Json

/-- `models.DAGEdge`. -/
structure DAGEdge where
  from_node : String
  to_node : String
  condition : Option String := none

/-- `models.ExecutionDAG`. -/
structure ExecutionDAG where
  nodes : List DAGNode
  edges : List DAGEdge
  entry_node : String
  exit_node : List String

/-- `models.SecurityPolicy`. -/
structure SecurityPolicy where
  network_whitelist : List String
  file_read_paths : List String
  file_write_paths : List String
  max_execution_time_ms : Int
  max_retries : Int
  sandbox_level : SandboxLevel
  dangerous_patterns : List String
  env_whitelist : List String

/-- `models.SkillMetadata`. -/
structure SkillMetadata where
  name : String
  version : String
  description : String
  author : String
  tags : List String
  license : String := "MIT"
  created_at : String := ""
  updated_at : String := ""

/-- `models.JadeSkill`. -/
structure JadeSkill where
  jade_version : String
  skill_id : String
  metadata : SkillMetadata
  trigger : Trigger
  execution_dag : ExecutionDAG
  security : SecurityPolicy
  input_schema : Option Json := none
  output_schema : Option Json := none
  mcp_compatible : Bool := false
  required_mcp_capabilities : List String := []
  raw_data : Json := .obj []

/-- The normalized-subset JSON document that `JadeSkill.compute_hash`
serializes (the dict literal of `models.py` lines 298–311). -/
def JadeSkill.hashSubset (s : JadeSkill) : Json :=
  .obj
    [("jade_version", .str s.jade_version),
     ("skill_id", .str s.skill_id),
     ("metadata", .obj
        [("name", .str s.metadata.name),
         ("version", .str s.metadata.version)]),
     ("execution_dag", .obj
        [("nodes", .arr (s.execution_dag.nodes.map fun n =>
            .obj [("id", .str n.id), ("action", .str n.action), ("params", n.params)])),
         ("edges", .arr (s.execution_dag.edges.map fun e =>
            .obj [("from", .str e.from_node), ("to", .str e.to_node),
                  ("condition", match e.condition with
                                | some c => .str c
                                | none => .null)]))]),
     ("security", .obj
        [("network_whitelist", .arr (s.security.network_whitelist.map .str)),
         ("sandbox_level", .str s.security.sandbox_level.value)])]

/-- `JadeSkill.compute_hash`: SHA-256 hex digest of the UTF-8 bytes of
`json.dumps(subset, sort_keys=True, ensure_ascii=False)`.  No
`separators` argument is passed, so Python's defaults `", "` and `": "`
apply. -/
def JadeSkill.compute_hash (s : JadeSkill) : String :=
  sha256Hex (utf8Bytes (dumps true ", " ": " s.hashSubset))

/-! ### `validator.py` — the required-field check of `validate_dict` -/

/-- The required top-level fields checked by
`JadeValidator._check_required_fields` (validator.py line 212). -/
def requiredFields : List String :=
  ["jade_version", "skill_id", "metadata", "trigger", "execution_dag", "security"]

/-- `JadeValidator._check_required_fields`: for each required field
missing from `data` it constructs a `ValidationIssue` passing
`path=field_name` and a `hint=` keyword argument (validator.py lines
215–221); the `ValidationIssue` dataclass has no `hint` field, so the
construction for the first missing field raises `TypeError`. -/
def check_required_fields_go (data : Json) : List String → Except PyError (List ValidationIssue)
  | [] => .ok []
  | f :: rest =>
      if data.hasKey f then check_required_fields_go data rest
      else do
        let issue ← mkValidationIssue .error "MISSING_FIELD"
          ("Required field '" ++ f ++ "' is missing") f
          (some ("Add '" ++ f ++ "' to your skill JSON. See examples/ for reference."))
        let issues ← check_required_fields_go data rest
        pure (issue :: issues)

/-- `JadeValidator._check_required_fields`. -/
def check_required_fields (data : Json) : Except PyError (List ValidationIssue) :=
  check_required_fields_go data requiredFields

/-- `JadeValidator.validate_dict`, parameterized over the rest of the
pipeline (steps 4–10 and the result assembly, which this development
does not need to inspect for the structural claims): step 3 runs the
required-field check, and if any error-severity issue was collected it
returns `ValidationResult(valid=False, issues=issues)` at once (whose
`checked_at` default evaluates the wall clock, passed here as `now`). -/
def validate_dict_with
    (rest : Json → List ValidationIssue → Except PyError ValidationResult)
    (now : ℚ) (data : Json) : Except PyError ValidationResult := do
  let issues ← check_required_fields data
  if issues.any (fun i => i.severity = ValidationSeverity.error) then
    pure { valid := false, issues := issues, skill_hash := "", checked_at := now }
  else
    rest data issues

/-- How `validate_dict` assembles its final result (validator.py lines
201–207): `valid` is the negation of "some collected issue has error
severity". -/
def mkValidationResult (issues : List ValidationIssue) (skill_hash : String)
    (now : ℚ) : ValidationResult :=
  { valid := !(issues.any fun i => i.severity = ValidationSeverity.error),
    issues := issues, skill_hash := skill_hash, checked_at := now }

/-! ### `executor.py` — the pre-flight verification step -/

/-- `executor.NodeResult`. -/
structure NodeResult where
  node_id : String
  status : String
  output : Option Json := none
  error : Option String := none
  duration_ms : ℚ := 0

/-- `executor.ExecutionTrace` (wall-clock fields as rationals). -/
structure ExecutionTrace where
  skill_id : String
  started_at : ℚ
  finished_at : ℚ := 0
  status : String := "running"
  node_results : List NodeResult := []
  total_duration_ms : ℚ := 0

/-- Every attribute defined on the `JadeValidator` class or set by its
`__init__` (validator.py): note there is no attribute named
`validate`. -/
def jadeValidatorAttributes : List String :=
  ["__init__", "_load_default_schema", "_load_default_allowed_actions",
   "_extract_action_names", "load_schema", "load_allowed_actions",
   "validate_file", "validate_dict", "_check_required_fields",
   "_check_version", "_check_metadata", "_check_trigger",
   "_check_semantic_consistency", "_compute_skill_hash", "validate_batch",
   "SUPPORTED_VERSIONS", "SKILL_ID_PATTERN", "VERSION_PATTERN",
   "JADE_VERSION_PATTERN", "_schema", "_allowed_actions",
   "_security_engine", "_dag_analyzer"]

/-- The pre-flight step of `JadeExecutor.execute` (executor.py lines
98–107): with `verify_before_run` set it constructs a `JadeValidator`
and evaluates `v.validate(skill)`.  `JadeValidator` has no attribute
`validate` (see `jadeValidatorAttributes`), so in Python the attribute
lookup itself raises `AttributeError` — before any validation runs and
before any DAG node executes. -/
def executePreflight (verify_before_run : Bool) : Except PyError Unit :=
  if verify_before_run then
    if jadeValidatorAttributes.contains "validate" then
      .ok ()
    else
      .error (.attributeError "'JadeValidator' object has no attribute 'validate'")
  else
    .ok ()

/-- `JadeExecutor.execute`, parameterized over everything after the
pre-flight step (DAG extraction, Kahn scheduling and the node loop,
which the pre-flight claim never reaches): the pre-flight step runs
first and an exception it raises propagates out of `execute`. -/
def JadeExecutor.execute (verify_before_run : Bool)
    (runRest : Json → Json → Except PyError ExecutionTrace)
    (skill : Json) (inputs : Json) : Except PyError ExecutionTrace := do
  executePreflight verify_before_run
  runRest skill inputs

/-! ### `optimizer.py` — the security-policy merge of `compose` -/

/-- The composed `"security"` object that `JadeOptimizer.compose` puts
into its result (optimizer.py lines 163–167). -/
structure ComposedSecurity where
  sandbox : String
  network_whitelist : List String
  max_execution_time_ms : Int
deriving DecidableEq, Repr

/-- The string elements of a JSON array (whitelists are arrays of
strings in every Python-reachable skill document). -/
def jsonStringList : Json → List String
  | .arr items => items.filterMap fun j => match j with
      | .str s => some s
      | _ => none
  | _ => []

/-- Integer field with default (`sec.get(key, default)` where every
Python-reachable value is an int). -/
def jsonIntD (j : Json) (key : String) (dflt : Int) : Int :=
  match j.get? key with
  | some (.num n) => n
  | _ => dflt

/-- `sec.get("sandbox") == "standard"`. -/
def sandboxIsStandard (sec : Json) : Bool :=
  match sec.get? "sandbox" with
  | some (.str v) => v = "standard"
  | _ => false

/-- Python string `<`: lexicographic comparison by code point. -/
def charsLt : List Char → List Char → Bool
  | [], [] => false
  | [], _ :: _ => true
  | _ :: _, [] => false
  | a :: as, b :: bs =>
      if a.toNat < b.toNat then true
      else if b.toNat < a.toNat then false
      else charsLt as bs

/-- Python string `<` on `String`. -/
def pyStrLt (a b : String) : Bool := charsLt a.data b.data

/-- Insert into a strictly increasing duplicate-free string list. -/
def insertSortedSet (s : String) : List String → List String
  | [] => [s]
  | t :: rest =>
      if pyStrLt s t then s :: t :: rest
      else if s = t then t :: rest
      else t :: insertSortedSet s rest

/-- `sorted(set(l))` for strings: the strictly increasing enumeration of
the distinct elements of `l`. -/
def pySortedSet (l : List String) : List String :=
  l.foldl (fun acc s => insertSortedSet s acc) []

/-- `skill.get("security", {})`. -/
def skillSec (s : Json) : Json := s.getD "security" (.obj [])

/-- `sec.get("network_whitelist", [])`, as a string list. -/
def skillWhitelist (s : Json) : List String :=
  jsonStringList ((skillSec s).getD "network_whitelist" (.arr []))

/-- `sec.get("max_execution_time_ms", 30000)`. -/
def skillTimeout (s : Json) : Int :=
  jsonIntD (skillSec s) "max_execution_time_ms" 30000

/-- One iteration of the security-merge loop of `JadeOptimizer.compose`
(optimizer.py lines 143–148) over the running
`(collected whitelist entries, max_timeout, sandbox)` state. -/
def composeMergeStep (st : List String × Int × String) (skill : Json) :
    List String × Int × String :=
  (st.1 ++ skillWhitelist skill,
   max st.2.1 (skillTimeout skill),
   if sandboxIsStandard (skillSec skill) && st.2.2 == "strict" then "standard"
   else st.2.2)

/-- The merged security policy of `JadeOptimizer.compose`
(optimizer.py lines 139–148 and the `"security"` object of lines
163–167): whitelist entries are collected into a set and sorted, the
timeout starts at 0 and takes the running maximum, and the sandbox
starts at `"strict"`. -/
def composeMergedSecurity (skills : List Json) : ComposedSecurity :=
  let st := skills.foldl composeMergeStep ([], 0, "strict")
  { sandbox := st.2.2,
    network_whitelist := pySortedSet st.1,
    max_execution_time_ms := st.2.1 }

/-! ### `registry.py` — registration, attestations, Bayesian confidence -/

/-- `models.AttestationType`. -/
inductive AttestationType where
  | success | failure
deriving DecidableEq, Repr

/-- `models.RegistryEntry` (confidence and wall-clock values as exact
rationals; the success/failure counters only ever start at zero and are
incremented, so they are naturals). -/
structure RegistryEntry where
  skill_id : String
  skill_hash : String
  confidence_score : ℚ
  success_count : Nat := 0
  failure_count : Nat := 0
  last_verified : ℚ := 0
  source_url : String := ""
  signature : String := ""
deriving DecidableEq, Repr

/-- `models.Attestation`. -/
structure Attestation where
  skill_id : String
  skill_hash : String
  success : Bool
  execution_time_ms : Int := 0
  attestation_type : AttestationType := .success
  agent_id : String := ""
  timestamp : ℚ := 0
  error_code : String := ""
  error_message : String := ""
deriving DecidableEq, Repr

/-- The in-memory state of `JadeRegistry`: the `_entries` and
`_attestations` dicts, as insertion-ordered association lists. -/
structure Registry where
  entries : List (String × RegistryEntry) := []
  attestations : List (String × List Attestation) := []
deriving DecidableEq, Repr

/-- Python dict assignment `d[k] = v`: replace the first binding of `k`
in place, or append a new binding. -/
def updAssoc {α : Type} (l : List (String × α)) (k : String) (v : α) :
    List (String × α) :=
  match l with
  | [] => [(k, v)]
  | (k', v') :: rest =>
      if k' = k then (k, v) :: rest else (k', v') :: updAssoc rest k v

/-- Python `d.setdefault(k, [])`. -/
def setdefaultNil {α : Type} (l : List (String × List α)) (k : String) :
    List (String × List α) :=
  match l.lookup k with
  | some _ => l
  | none => l ++ [(k, [])]

/-- `PRIOR_ALPHA` (registry.py line 42). -/
def PRIOR_ALPHA : ℚ := 1

/-- `PRIOR_BETA` (registry.py line 43). -/
def PRIOR_BETA : ℚ := 1

/-- `JadeRegistry._bayesian_confidence` (registry.py line 182). -/
def bayesian_confidence (successes failures : Nat) : ℚ :=
  (successes + PRIOR_ALPHA) / (successes + failures + PRIOR_ALPHA + PRIOR_BETA)

/-- `JadeRegistry._compute_initial_confidence`. -/
def compute_initial_confidence : ℚ :=
  bayesian_confidence 0 0

/-- `JadeRegistry.register` (registry.py lines 83–108), returning the
post-state and the returned entry.  The same-hash case returns the
existing entry with no state change; otherwise a fresh entry replaces
any previous one, and `_attestations.setdefault(skill_id, [])`
preserves an attestation list already stored under that id. -/
def Registry.register (reg : Registry) (skill : JadeSkill)
    (source_url : String) (now : ℚ) : Registry × RegistryEntry :=
  let skill_hash := skill.compute_hash
  let fresh : RegistryEntry :=
    { skill_id := skill.skill_id, skill_hash := skill_hash,
      confidence_score := compute_initial_confidence,
      success_count := 0, failure_count := 0,
      last_verified := now, source_url := source_url }
  let put : Registry × RegistryEntry :=
    ({ entries := updAssoc reg.entries skill.skill_id fresh,
       attestations := setdefaultNil reg.attestations skill.skill_id }, fresh)
  match reg.entries.lookup skill.skill_id with
  | some existing =>
      if existing.skill_hash = skill_hash then (reg, existing) else put
  | none => put

/-- `JadeRegistry.submit_attestation` (registry.py lines 120–157),
returning the post-state and either the (possibly updated) entry or the
raised `ValueError`.  The unknown-id and hash-mismatch failures raise
before any mutation; an empty submitted hash returns the entry
untouched. -/
def Registry.submit_attestation (reg : Registry) (att : Attestation)
    (now : ℚ) : Registry × Except PyError RegistryEntry :=
  match reg.entries.lookup att.skill_id with
  | none =>
      (reg, .error (.valueError
        ("Skill '" ++ att.skill_id ++ "' not found in registry")))
  | some entry =>
      if att.skill_hash = "" then (reg, .ok entry)
      else if att.skill_hash ≠ entry.skill_hash then
        (reg, .error (.valueError
          ("Attestation hash mismatch for '" ++ att.skill_id ++ "': expected "
            ++ entry.skill_hash ++ ", got " ++ att.skill_hash)))
      else
        let withAtt :=
          updAssoc reg.attestations att.skill_id
            (((reg.attestations.lookup att.skill_id).getD []) ++ [att])
        let counted :=
          if att.success then
            { entry with success_count := entry.success_count + 1 }
          else
            { entry with failure_count := entry.failure_count + 1 }
        let updated :=
          { counted with
              confidence_score :=
                bayesian_confidence counted.success_count counted.failure_count,
              last_verified := now }
        ({ entries := updAssoc reg.entries att.skill_id updated,
           attestations := withAtt }, .ok updated)

/-- `JadeRegistry.get_attestations`. -/
def Registry.get_attestations (reg : Registry) (skill_id : String) :
    List Attestation :=
  (reg.attestations.lookup skill_id).getD []

/-- The `total_attestations` statistic of `JadeRegistry.get_stats`
(registry.py line 314): the summed length of every stored attestation
list (computed the same way by both branches of `get_stats`, since an
empty registry stores no attestation lists either). -/
def Registry.total_attestations (reg : Registry) : Nat :=
  (reg.attestations.map fun p => p.2.length).sum

/-- Submitting a list of attestations in order, keeping only the state
(the per-attestation results are discarded, as in `batch_submit`). -/
def Registry.submitMany (reg : Registry) (atts : List Attestation)
    (now : ℚ) : Registry :=
  atts.foldl (fun r a => (r.submit_attestation a now).1) reg

/-! ### Lemmas on the string order and sorted sets -/

theorem charsLt_asymm_total : ∀ a b : List Char,
    charsLt a b = false → a ≠ b → charsLt b a = true := by
  intro a
  induction a with
  | nil =>
      intro b hf hne
      cases b with
      | nil => exact absurd rfl hne
      | cons c cs => simp [charsLt] at hf
  | cons c cs ih =>
      intro b hf hne
      cases b with
      | nil => simp [charsLt]
      | cons d ds =>
          by_cases h1 : c.toNat < d.toNat
          · simp [charsLt, h1] at hf
          · by_cases h2 : d.toNat < c.toNat
            · simp [charsLt, h2, Nat.not_lt.mpr (Nat.le_of_lt h2)]
            · have hcd : c = d := by
                have hnat := Nat.le_antisymm (Nat.not_lt.mp h2) (Nat.not_lt.mp h1)
                rw [← Char.ofNat_toNat c, ← Char.ofNat_toNat d, hnat]
              subst hcd
              simp only [charsLt, h1, if_neg h1, if_neg h2, if_false] at hf ⊢
              exact ih ds hf (by intro h; exact hne (by rw [h]))

theorem pyStrLt_asymm_total {a b : String}
    (hf : pyStrLt a b = false) (hne : a ≠ b) : pyStrLt b a = true := by
  refine charsLt_asymm_total a.data b.data hf ?_
  intro h
  exact hne (by cases a; cases b; exact congrArg String.mk h)

theorem mem_insertSortedSet (x s : String) :
    ∀ l : List String, x ∈ insertSortedSet s l ↔ x = s ∨ x ∈ l := by
  intro l
  induction l with
  | nil => simp [insertSortedSet]
  | cons t rest ih =>
      by_cases h1 : pyStrLt s t = true
      · rw [insertSortedSet, if_pos h1]
        simp [List.mem_cons]
      · by_cases h2 : s = t
        · rw [insertSortedSet, if_neg (by simp [h1]), if_pos h2]
          subst h2
          simp only [List.mem_cons]
          tauto
        · rw [insertSortedSet, if_neg (by simp [h1]), if_neg h2]
          simp only [List.mem_cons, ih]
          tauto

/-- Strict sortedness in the Python string order. -/
def StrSorted (l : List String) : Prop :=
  l.Chain' (fun a b => pyStrLt a b = true)

theorem strSorted_insertSortedSet {l : List String} (s : String)
    (h : StrSorted l) : StrSorted (insertSortedSet s l) := by
  induction l with
  | nil => simp [insertSortedSet, StrSorted]
  | cons t rest ih =>
      rw [StrSorted, List.chain'_cons'] at h
      obtain ⟨hhead, htail⟩ := h
      by_cases h1 : pyStrLt s t = true
      · rw [StrSorted, insertSortedSet, if_pos h1, List.chain'_cons]
        exact ⟨h1, List.chain'_cons'.mpr ⟨hhead, htail⟩⟩
      · by_cases h2 : s = t
        · rw [StrSorted, insertSortedSet, if_neg (by simp [h1]), if_pos h2]
          exact List.chain'_cons'.mpr ⟨hhead, htail⟩
        · have hts : pyStrLt t s = true :=
            pyStrLt_asymm_total (by simpa using h1) h2
          rw [StrSorted, insertSortedSet, if_neg (by simp [h1]), if_neg h2,
            List.chain'_cons']
          refine ⟨?_, ih htail⟩
          intro y hy
          cases rest with
          | nil =>
              simp only [insertSortedSet, List.head?_cons, Option.mem_def,
                Option.some.injEq] at hy
              subst hy; exact hts
          | cons r rs =>
              rw [insertSortedSet] at hy
              by_cases h3 : pyStrLt s r = true
              · rw [if_pos h3] at hy
                simp only [List.head?_cons, Option.mem_def, Option.some.injEq] at hy
                subst hy; exact hts
              · by_cases h4 : s = r
                · rw [if_neg (by simp [h3]), if_pos h4] at hy
                  simp only [List.head?_cons, Option.mem_def, Option.some.injEq] at hy
                  subst hy; exact hhead r (by simp)
                · rw [if_neg (by simp [h3]), if_neg h4] at hy
                  simp only [List.head?_cons, Option.mem_def, Option.some.injEq] at hy
                  subst hy; exact hhead r (by simp)

theorem mem_pySortedSet_aux (x : String) :
    ∀ (l : List String) (acc : List String),
      x ∈ l.foldl (fun acc s => insertSortedSet s acc) acc ↔ x ∈ acc ∨ x ∈ l := by
  intro l
  induction l with
  | nil => simp
  | cons s rest ih =>
      intro acc
      rw [List.foldl_cons, ih, mem_insertSortedSet]
      simp [List.mem_cons]
      tauto

theorem mem_pySortedSet (x : String) (l : List String) :
    x ∈ pySortedSet l ↔ x ∈ l := by
  rw [pySortedSet, mem_pySortedSet_aux]
  simp

theorem strSorted_pySortedSet (l : List String) : StrSorted (pySortedSet l) := by
  rw [pySortedSet]
  suffices h : ∀ acc, StrSorted acc →
      StrSorted (l.foldl (fun acc s => insertSortedSet s acc) acc) by
    exact h [] (by simp [StrSorted])
  induction l with
  | nil => intro acc hacc; simpa using hacc
  | cons s rest ih =>
      intro acc hacc
      exact ih _ (strSorted_insertSortedSet s hacc)

/-! ### Lemmas on `foldl max` over the integers -/

theorem le_foldl_max_init : ∀ (l : List Int) (a : Int), a ≤ l.foldl max a := by
  intro l
  induction l with
  | nil => intro a; simp
  | cons x rest ih =>
      intro a
      calc a ≤ max a x := le_max_left a x
        _ ≤ rest.foldl max (max a x) := ih (max a x)

theorem mem_le_foldl_max : ∀ (l : List Int) (a : Int), ∀ x ∈ l, x ≤ l.foldl max a := by
  intro l
  induction l with
  | nil => intro a x hx; simp at hx
  | cons y rest ih =>
      intro a x hx
      rcases List.mem_cons.mp hx with rfl | hx
      · calc x ≤ max a x := le_max_right a x
          _ ≤ rest.foldl max (max a x) := le_foldl_max_init rest _
      · exact ih (max a y) x hx

theorem foldl_max_mem : ∀ (l : List Int) (a : Int),
    l.foldl max a = a ∨ l.foldl max a ∈ l := by
  intro l
  induction l with
  | nil => intro a; simp
  | cons y rest ih =>
      intro a
      rcases ih (max a y) with h | h
      · rcases max_cases a y with ⟨he, _⟩ | ⟨he, _⟩
        · left; rw [List.foldl_cons, h, he]
        · right; rw [List.foldl_cons, h, he]; exact List.mem_cons_self y rest
      · right; exact List.mem_cons_of_mem y h

/-! ### The security-merge fold of `compose`, componentwise -/

theorem compose_fold_whitelist : ∀ (skills : List Json) (st : List String × Int × String),
    (skills.foldl composeMergeStep st).1 = st.1 ++ skills.flatMap skillWhitelist := by
  intro skills
  induction skills with
  | nil => intro st; simp
  | cons s rest ih =>
      intro st
      rw [List.foldl_cons, ih]
      simp [composeMergeStep, List.flatMap_cons, List.append_assoc]

theorem compose_fold_timeout : ∀ (skills : List Json) (st : List String × Int × String),
    (skills.foldl composeMergeStep st).2.1 = (skills.map skillTimeout).foldl max st.2.1 := by
  intro skills
  induction skills with
  | nil => intro st; simp
  | cons s rest ih =>
      intro st
      rw [List.foldl_cons, ih]
      simp [composeMergeStep]

theorem compose_fold_sandbox : ∀ (skills : List Json) (st : List String × Int × String),
    (skills.foldl composeMergeStep st).2.2 =
      if st.2.2 = "strict" then
        (if skills.any (fun s => sandboxIsStandard (skillSec s)) then "standard"
         else "strict")
      else st.2.2 := by
  intro skills
  induction skills with
  | nil => intro st; by_cases h : st.2.2 = "strict" <;> simp [h]
  | cons s rest ih =>
      intro st
      rw [List.foldl_cons, ih]
      by_cases hstd : sandboxIsStandard (skillSec s) = true
      · by_cases hs : st.2.2 = "strict"
        · simp [composeMergeStep, hstd, hs]
        · simp [composeMergeStep, hstd, hs, beq_iff_eq]
      · by_cases hs : st.2.2 = "strict"
        · simp [composeMergeStep, hstd, hs, List.any_cons]
        · simp [composeMergeStep, hstd, hs, beq_iff_eq]

/-! ### Association-list dictionary lemmas -/

theorem lookup_updAssoc_self {α : Type} :
    ∀ (l : List (String × α)) (k : String) (v : α),
      (updAssoc l k v).lookup k = some v := by
  intro l
  induction l with
  | nil => intro k v; simp [updAssoc]
  | cons p rest ih =>
      intro k v
      obtain ⟨k', v'⟩ := p
      by_cases h : k' = k
      · rw [updAssoc, if_pos h, List.lookup_cons]
        simp
      · rw [updAssoc, if_neg h]
        rw [List.lookup_cons]
        cases hb : (k == k') with
        | true => exact absurd (beq_iff_eq.mp hb) (fun hh => h hh.symm)
        | false => exact ih k v

theorem lookup_append_right {α : Type} :
    ∀ (l : List (String × α)) (k : String) (v : α),
      l.lookup k = none → (l ++ [(k, v)]).lookup k = some v := by
  intro l
  induction l with
  | nil => intro k v _; simp
  | cons p rest ih =>
      intro k v hl
      obtain ⟨k', v'⟩ := p
      rw [List.lookup_cons] at hl
      rw [List.cons_append, List.lookup_cons]
      cases hpk : (k == k') with
      | true => rw [hpk] at hl; simp at hl
      | false =>
          rw [hpk] at hl
          simp only [Bool.false_eq_true, if_false] at hl ⊢
          exact ih k v hl

theorem lookup_setdefaultNil_self {α : Type} (l : List (String × List α)) (k : String) :
    (setdefaultNil l k).lookup k = some ((l.lookup k).getD []) := by
  rw [setdefaultNil]
  cases hl : l.lookup k with
  | some v => simp [hl]
  | none =>
      simp only [Option.getD_none]
      exact lookup_append_right l k [] hl

theorem total_setdefaultNil {α : Type} (l : List (String × List α)) (k : String) :
    ((setdefaultNil l k).map fun p => p.2.length).sum
      = (l.map fun p => p.2.length).sum := by
  rw [setdefaultNil]
  cases hl : l.lookup k with
  | some v => rfl
  | none => simp

/-! ### C1 — `validate_dict` on documents with missing required fields -/

theorem check_required_fields_go_missing (data : Json) :
    ∀ l : List String, (∃ f ∈ l, data.hasKey f = false) →
      check_required_fields_go data l = .error (.typeError
        "ValidationIssue.__init__ got an unexpected keyword argument hint") := by
  intro l
  induction l with
  | nil => rintro ⟨f, hf, _⟩; simp at hf
  | cons f rest ih =>
      rintro ⟨g, hg, hgk⟩
      rw [check_required_fields_go]
      by_cases hf : data.hasKey f = true
      · rw [if_pos hf]
        rcases List.mem_cons.mp hg with rfl | hg'
        · rw [hf] at hgk; exact absurd hgk (by simp)
        · exact ih ⟨g, hg', hgk⟩
      · rw [if_neg hf]
        rfl

/-- C1: the claim says `validate_dict` returns — never raises — a
`ValidationResult` with `valid = false` carrying one error-severity
`MISSING_FIELD` issue per missing required field.  The code instead
raises: `_check_required_fields` passes a `hint=` keyword to the
`ValidationIssue` dataclass, which has no such field, so the first
missing required field makes `validate_dict` raise `TypeError` (whatever
the rest of the pipeline would do, and whatever the wall clock reads).
This contradicts the spec's totality statement and the repository's own
`test_missing_required_field` test, so the claim is recorded as a code
bug; this theorem evaluates the embedded code on the divergence
domain. -/
theorem validate_dict_missing_field_raises_typeError
    (rest : Json → List ValidationIssue → Except PyError ValidationResult)
    (now : ℚ) (data : Json)
    (hmiss : ∃ f ∈ requiredFields, data.hasKey f = false) :
    validate_dict_with rest now data = .error (.typeError
      "ValidationIssue.__init__ got an unexpected keyword argument hint") := by
  rw [validate_dict_with]
  have h := check_required_fields_go_missing data requiredFields hmiss
  rw [check_required_fields] at *
  rw [h]
  rfl

/-- C1 witness: the empty JSON document misses every required field, and
`validate_dict` on it raises `TypeError` instead of returning a
verdict. -/
theorem validate_dict_missing_field_raises_typeError_witness :
    (∃ f ∈ requiredFields, (Json.obj []).hasKey f = false) ∧
      validate_dict_with (fun _ _ => .ok { valid := true }) 0 (Json.obj [])
        = .error (.typeError
            "ValidationIssue.__init__ got an unexpected keyword argument hint") :=
  ⟨by decide,
   validate_dict_missing_field_raises_typeError (fun _ _ => .ok { valid := true })
     0 (Json.obj []) (by decide)⟩

/-! ### C4 — the executor's pre-flight verification step -/

/-- C4: the claim says that with `verify_before_run = true` an invalid
skill makes `execute` abort with an execution error listing the
validation error messages, and a valid skill proceeds past the
pre-flight step.  In the code, the pre-flight step calls
`v.validate(skill)` on a `JadeValidator`, which defines no method
`validate` (only `validate_file` / `validate_dict` / `validate_batch`),
so *every* call — valid skill or not — raises `AttributeError` before
any validation output or node execution exists.  The claim is recorded
as a code bug; this theorem evaluates the embedded `execute` for every
skill, input and downstream behaviour. -/
theorem execute_preflight_raises_attributeError
    (runRest : Json → Json → Except PyError ExecutionTrace)
    (skill inputs : Json) :
    JadeExecutor.execute true runRest skill inputs =
      .error (.attributeError "'JadeValidator' object has no attribute 'validate'") :=
  rfl

/-! ### C5 — the security merge of multi-skill composition -/

/-- A composition input whose raw `sandbox` field is `"standard"`. -/
def composeSkillStd : Json :=
  .obj [("skill_id", .str "alpha"),
        ("security", .obj
          [("sandbox", .str "standard"),
           ("network_whitelist", .arr [.str "a.example.com"]),
           ("max_execution_time_ms", .num 10000)])]

/-- A composition input with no raw `sandbox` field at all (skills
normally declare `security.sandbox_level` instead). -/
def composeSkillPlain : Json :=
  .obj [("skill_id", .str "beta"),
        ("security", .obj
          [("network_whitelist", .arr [.str "b.example.com"]),
           ("max_execution_time_ms", .num 45000)])]

/-- C5 counterexample: the claim says the composed sandbox field is
`"standard"` only if *every* contributing skill's raw `sandbox` field
says `"standard"`.  Composing one skill that says `"standard"` with one
that says nothing yields `"standard"` although not every input says so:
the code promotes on *any* contributing skill, not on all of them. -/
theorem compose_sandbox_any_not_every :
    (composeMergedSecurity [composeSkillStd, composeSkillPlain]).sandbox = "standard"
    ∧ ¬ (∀ s ∈ [composeSkillStd, composeSkillPlain],
          sandboxIsStandard (skillSec s) = true) := by
  constructor
  · rfl
  · intro h
    have := h composeSkillPlain (by simp)
    simp [composeSkillPlain, sandboxIsStandard, skillSec, Json.getD, Json.get?,
      Json.hasKey, List.lookup] at this

/-- C5 (amended): `compose` merges the contributing security policies
with the composed network whitelist the sorted duplicate-free union of
the inputs' whitelists, the composed `max_execution_time_ms` the
maximum of the inputs' timeouts (each defaulting to 30000, and 0 for an
empty composition), and the composed `sandbox` field `"standard"` if
*at least one* contributing skill's raw top-level `sandbox` field says
`"standard"`, defaulting to `"strict"` otherwise. -/
theorem composeMergedSecurity_characterization (skills : List Json) :
    ((composeMergedSecurity skills).sandbox =
        if skills.any (fun s => sandboxIsStandard (skillSec s)) then "standard"
        else "strict")
    ∧ (∀ d : String,
        d ∈ (composeMergedSecurity skills).network_whitelist ↔
          ∃ s ∈ skills, d ∈ skillWhitelist s)
    ∧ StrSorted (composeMergedSecurity skills).network_whitelist
    ∧ (∀ s ∈ skills,
        skillTimeout s ≤ (composeMergedSecurity skills).max_execution_time_ms)
    ∧ ((composeMergedSecurity skills).max_execution_time_ms = 0
        ∨ ∃ s ∈ skills,
            (composeMergedSecurity skills).max_execution_time_ms = skillTimeout s) := by
  refine ⟨?_, ?_, ?_, ?_, ?_⟩
  · show (skills.foldl composeMergeStep ([], 0, "strict")).2.2 = _
    rw [compose_fold_sandbox]
    simp
  · intro d
    show d ∈ pySortedSet (skills.foldl composeMergeStep ([], 0, "strict")).1 ↔ _
    rw [mem_pySortedSet, compose_fold_whitelist]
    simp [List.mem_flatMap]
  · exact strSorted_pySortedSet _
  · intro s hs
    show _ ≤ (skills.foldl composeMergeStep ([], 0, "strict")).2.1
    rw [compose_fold_timeout]
    exact mem_le_foldl_max _ 0 _ (List.mem_map_of_mem skillTimeout hs)
  · show (skills.foldl composeMergeStep ([], 0, "strict")).2.1 = 0 ∨ _
    rw [compose_fold_timeout]
    rcases foldl_max_mem (skills.map skillTimeout) 0 with h | h
    · exact Or.inl h
    · right
      rcases List.mem_map.mp h with ⟨s, hs, he⟩
      refine ⟨s, hs, ?_⟩
      show (skills.foldl composeMergeStep ([], 0, "strict")).2.1 = skillTimeout s
      rw [compose_fold_timeout]
      exact he.symm

/-! ### C7 — the attestation hash guard -/

/-- C7: for a registered entry, a submitted attestation with a nonempty
hash different from the entry's current hash raises `ValueError` and
leaves the whole registry state (counts, confidence, attestation
history) untouched, while an attestation with an empty hash is silently
ignored: the entry is returned unchanged and nothing is incremented. -/
theorem submit_attestation_hash_guard
    (reg : Registry) (att : Attestation) (now : ℚ) (entry : RegistryEntry)
    (hlook : reg.entries.lookup att.skill_id = some entry) :
    (att.skill_hash ≠ "" → att.skill_hash ≠ entry.skill_hash →
        (reg.submit_attestation att now).1 = reg ∧
        ∃ msg, (reg.submit_attestation att now).2
          = Except.error (PyError.valueError msg))
    ∧ (att.skill_hash = "" →
        (reg.submit_attestation att now).1 = reg ∧
        (reg.submit_attestation att now).2 = Except.ok entry) := by
  constructor
  · intro hne hmis
    have hstep : reg.submit_attestation att now =
        (reg, .error (.valueError
          ("Attestation hash mismatch for '" ++ att.skill_id ++ "': expected "
            ++ entry.skill_hash ++ ", got " ++ att.skill_hash))) := by
      simp only [Registry.submit_attestation, hlook]
      rw [if_neg hne, if_pos hmis]
    rw [hstep]
    exact ⟨rfl, _, rfl⟩
  · intro hemp
    have hstep : reg.submit_attestation att now = (reg, .ok entry) := by
      simp only [Registry.submit_attestation, hlook]
      rw [if_pos hemp]
    rw [hstep]
    exact ⟨rfl, rfl⟩

/-- The registered entry of the C7 witness scenario. -/
def c7Entry : RegistryEntry :=
  { skill_id := "sk", skill_hash := "h1", confidence_score := 1/2 }

/-- The registry of the C7 witness scenario. -/
def c7Reg : Registry := { entries := [("sk", c7Entry)] }

/-- The mismatching attestation of the C7 witness scenario. -/
def c7Att : Attestation := { skill_id := "sk", skill_hash := "h2", success := true }

/-- C7 witness: a registry holding one entry under hash `h1`; submitting
a mismatching hash `h2` raises `ValueError` and changes nothing, and an
empty submitted hash returns the entry unchanged. -/
theorem submit_attestation_hash_guard_witness :
    c7Reg.entries.lookup "sk" = some c7Entry ∧
    ((("h2" : String) ≠ "" → c7Att.skill_hash ≠ c7Entry.skill_hash →
        (c7Reg.submit_attestation c7Att 0).1 = c7Reg ∧
        ∃ msg, (c7Reg.submit_attestation c7Att 0).2
          = Except.error (PyError.valueError msg))
      ∧ (c7Att.skill_hash = "" →
        (c7Reg.submit_attestation c7Att 0).1 = c7Reg ∧
        (c7Reg.submit_attestation c7Att 0).2 = Except.ok c7Entry)) :=
  ⟨rfl, submit_attestation_hash_guard c7Reg c7Att 0 c7Entry rfl⟩

/-! ### C10 — re-registration keeps the old attestation history -/

/-- C10: re-registering a skill id under a different content hash
replaces the entry — counters zeroed, confidence back to 1/2, hash
updated — but does not clear the stored attestation list for that id:
`get_attestations` still returns everything recorded against the old
hash, and the total-attestation statistic is unchanged. -/
theorem register_different_hash_keeps_attestations
    (reg : Registry) (skill : JadeSkill) (url : String) (now : ℚ)
    (entry : RegistryEntry)
    (hlook : reg.entries.lookup skill.skill_id = some entry)
    (hne : entry.skill_hash ≠ skill.compute_hash) :
    ((reg.register skill url now).1.entries.lookup skill.skill_id
        = some (reg.register skill url now).2)
    ∧ (reg.register skill url now).2.success_count = 0
    ∧ (reg.register skill url now).2.failure_count = 0
    ∧ (reg.register skill url now).2.confidence_score = 1/2
    ∧ (reg.register skill url now).2.skill_hash = skill.compute_hash
    ∧ (reg.register skill url now).1.get_attestations skill.skill_id
        = reg.get_attestations skill.skill_id
    ∧ (reg.register skill url now).1.total_attestations = reg.total_attestations := by
  have hreg : reg.register skill url now =
      ({ entries := updAssoc reg.entries skill.skill_id
           { skill_id := skill.skill_id, skill_hash := skill.compute_hash,
             confidence_score := compute_initial_confidence,
             success_count := 0, failure_count := 0,
             last_verified := now, source_url := url },
         attestations := setdefaultNil reg.attestations skill.skill_id },
       { skill_id := skill.skill_id, skill_hash := skill.compute_hash,
         confidence_score := compute_initial_confidence,
         success_count := 0, failure_count := 0,
         last_verified := now, source_url := url }) := by
    simp only [Registry.register, hlook]
    rw [if_neg hne]
  rw [hreg]
  refine ⟨lookup_updAssoc_self _ _ _, rfl, rfl, ?_, rfl, ?_, ?_⟩
  · show compute_initial_confidence = 1/2
    rw [compute_initial_confidence, bayesian_confidence, PRIOR_ALPHA, PRIOR_BETA]
    norm_num
  · show (Registry.get_attestations _ _) = _
    rw [Registry.get_attestations, Registry.get_attestations]
    show ((setdefaultNil reg.attestations skill.skill_id).lookup skill.skill_id).getD []
      = _
    rw [lookup_setdefaultNil_self]
    simp
  · show (Registry.total_attestations _) = _
    rw [Registry.total_attestations, Registry.total_attestations]
    exact total_setdefaultNil reg.attestations skill.skill_id

/-- A minimal valid skill used by the registry witness scenarios. -/
def witSkill : JadeSkill :=
  { jade_version := "1.0.0", skill_id := "wit_skill",
    metadata := { name := "Wit", version := "1.0.0", description := "w",
                  author := "a", tags := ["t"] },
    trigger := { type := .manual, conditions := [] },
    execution_dag := { nodes := [], edges := [], entry_node := "n",
                       exit_node := ["n"] },
    security := { network_whitelist := [], file_read_paths := [],
                  file_write_paths := [], max_execution_time_ms := 1000,
                  max_retries := 0, sandbox_level := .strict,
                  dangerous_patterns := [], env_whitelist := [] } }

/-- The old attestation of the C10 witness scenario. -/
def c10Att : Attestation :=
  { skill_id := "wit_skill", skill_hash := "oldhash", success := true }

/-- The previously registered entry of the C10 witness scenario. -/
def c10Entry : RegistryEntry :=
  { skill_id := "wit_skill", skill_hash := "oldhash", confidence_score := 1/2,
    success_count := 3, failure_count := 1 }

/-- The registry of the C10 witness scenario: one entry under an old
hash, with one attestation already recorded against it. -/
def c10Reg : Registry :=
  { entries := [("wit_skill", c10Entry)],
    attestations := [("wit_skill", [c10Att])] }

set_option maxRecDepth 10000 in
set_option maxHeartbeats 1000000 in
/-- C10 witness: re-registering `wit_skill` under its (different)
content hash resets the entry but keeps the old attestation on file. -/
theorem register_different_hash_keeps_attestations_witness :
    (c10Reg.entries.lookup witSkill.skill_id = some c10Entry
      ∧ c10Entry.skill_hash ≠ witSkill.compute_hash)
    ∧ (((c10Reg.register witSkill "" 0).1.entries.lookup witSkill.skill_id
          = some (c10Reg.register witSkill "" 0).2)
       ∧ (c10Reg.register witSkill "" 0).2.success_count = 0
       ∧ (c10Reg.register witSkill "" 0).2.failure_count = 0
       ∧ (c10Reg.register witSkill "" 0).2.confidence_score = 1/2
       ∧ (c10Reg.register witSkill "" 0).2.skill_hash = witSkill.compute_hash
       ∧ (c10Reg.register witSkill "" 0).1.get_attestations witSkill.skill_id
           = c10Reg.get_attestations witSkill.skill_id
       ∧ (c10Reg.register witSkill "" 0).1.total_attestations
           = c10Reg.total_attestations) :=
  ⟨⟨rfl, by decide⟩,
   register_different_hash_keeps_attestations c10Reg witSkill "" 0 c10Entry
     rfl (by decide)⟩

/-! ### C6 — the Bayesian confidence state machine -/

theorem length_beBytes : ∀ (k n : Nat), (beBytes k n).length = k := by
  intro k
  induction k with
  | zero => intro n; rfl
  | succ k ih => intro n; simp [beBytes, ih]

theorem length_sha256Round (st : List Nat) (kw : Nat) :
    (sha256Round st kw).length = st.length := by
  rcases st with _ | ⟨a, _ | ⟨b, _ | ⟨c, _ | ⟨d, _ | ⟨e, _ | ⟨f, _ | ⟨g, _ |
    ⟨h, _ | ⟨i, rest⟩⟩⟩⟩⟩⟩⟩⟩⟩ <;> rfl

theorem length_foldl_round :
    ∀ (kws : List Nat) (h : List Nat), (kws.foldl sha256Round h).length = h.length := by
  intro kws
  induction kws with
  | nil => intro h; rfl
  | cons k rest ih =>
      intro h
      rw [List.foldl_cons, ih, length_sha256Round]

theorem length_sha256Compress (h block : List Nat) :
    (sha256Compress h block).length = h.length := by
  rw [sha256Compress]
  simp [length_foldl_round]

theorem length_foldl_compress :
    ∀ (blocks : List (List Nat)) (h : List Nat),
      (blocks.foldl sha256Compress h).length = h.length := by
  intro blocks
  induction blocks with
  | nil => intro h; rfl
  | cons b rest ih =>
      intro h
      rw [List.foldl_cons, ih, length_sha256Compress]

theorem length_flatMap_beBytes4 :
    ∀ l : List Nat, (l.flatMap (beBytes 4)).length = 4 * l.length := by
  intro l
  induction l with
  | nil => rfl
  | cons x rest ih =>
      rw [List.flatMap_cons, List.length_append, ih, length_beBytes,
        List.length_cons]
      omega

theorem sha256Bytes_length (msg : List Nat) : (sha256Bytes msg).length = 32 := by
  rw [sha256Bytes]
  rw [length_flatMap_beBytes4, length_foldl_compress]
  rfl

theorem length_flatMap_hexByte :
    ∀ l : List Nat, (l.flatMap hexByte).length = 2 * l.length := by
  intro l
  induction l with
  | nil => rfl
  | cons x rest ih =>
      rw [List.flatMap_cons, List.length_append, ih, List.length_cons]
      have hx : (hexByte x).length = 2 := rfl
      omega

/-- A skill's content hash is a 64-character hex string. -/
theorem compute_hash_length (s : JadeSkill) : s.compute_hash.length = 64 := by
  rw [JadeSkill.compute_hash, sha256Hex, hexString]
  show ((sha256Bytes (utf8Bytes (dumps true ", " ": " s.hashSubset))).flatMap
      hexByte).length = 64
  rw [length_flatMap_hexByte, sha256Bytes_length]

/-- A skill's content hash is never the empty string; used because
`submit_attestation` ignores empty-hash submissions. -/
theorem compute_hash_ne_empty (s : JadeSkill) : s.compute_hash ≠ "" := by
  intro h
  have hlen : s.compute_hash.length = 64 := compute_hash_length s
  rw [h] at hlen
  simp at hlen

/-- A success/failure submission for a given id and hash, as the tests
build them (only the fields the registry reads). -/
def mkSubmission (id hash : String) (ok : Bool) : Attestation :=
  { skill_id := id, skill_hash := hash, success := ok }

/-- The entry as `submit_attestation` rewrites it on a matching
submission: one counter bumped, confidence recomputed, clock updated. -/
def stepEntry (e : RegistryEntry) (b : Bool) (now : ℚ) : RegistryEntry :=
  let counted :=
    if b then { e with success_count := e.success_count + 1 }
    else { e with failure_count := e.failure_count + 1 }
  { counted with
      confidence_score :=
        bayesian_confidence counted.success_count counted.failure_count,
      last_verified := now }

/-- Folding matching attestations over the registry: the counters
accumulate and the confidence field always re-equals the Beta posterior
mean of the final counters. -/
theorem submitMany_matching :
    ∀ (flags : List Bool) (reg : Registry) (sid hash : String)
      (e : RegistryEntry) (now : ℚ),
      reg.entries.lookup sid = some e →
      e.skill_id = sid →
      e.skill_hash = hash →
      hash ≠ "" →
      e.confidence_score = bayesian_confidence e.success_count e.failure_count →
      ∃ e' : RegistryEntry,
        (reg.submitMany (flags.map (mkSubmission sid hash))
            now).entries.lookup sid = some e'
        ∧ e'.success_count = e.success_count + flags.count true
        ∧ e'.failure_count = e.failure_count + flags.count false
        ∧ e'.skill_hash = hash
        ∧ e'.skill_id = sid
        ∧ e'.confidence_score
            = bayesian_confidence e'.success_count e'.failure_count := by
  intro flags
  induction flags with
  | nil =>
      intro reg sid hash e now hlook hsid hhash hne hconf
      exact ⟨e, by simpa [Registry.submitMany] using hlook, by simp, by simp,
        hhash, hsid, hconf⟩
  | cons b bs ih =>
      intro reg sid hash e now hlook hsid hhash hne hconf
      have hstep : (reg.submit_attestation (mkSubmission sid hash b) now).1
          = { entries := updAssoc reg.entries sid (stepEntry e b now),
              attestations := updAssoc reg.attestations sid
                (((reg.attestations.lookup sid).getD [])
                  ++ [mkSubmission sid hash b]) } := by
        simp only [Registry.submit_attestation, mkSubmission, hlook]
        rw [if_neg hne, if_neg (by rw [hhash]; simp)]
        rfl
      have hfold : reg.submitMany
          ((b :: bs).map (mkSubmission sid hash)) now
          = Registry.submitMany
              ((reg.submit_attestation (mkSubmission sid hash b) now).1)
              (bs.map (mkSubmission sid hash)) now := rfl
      have hid2 : (stepEntry e b now).skill_id = e.skill_id := by cases b <;> rfl
      have hhash2 : (stepEntry e b now).skill_hash = e.skill_hash := by
        cases b <;> rfl
      obtain ⟨e', h1, h2, h3, h4, h5, h6⟩ :=
        ih ((reg.submit_attestation (mkSubmission sid hash b) now).1)
          sid hash (stepEntry e b now) now
          (by rw [hstep]; exact lookup_updAssoc_self _ _ _)
          (by rw [hid2]; exact hsid)
          (by rw [hhash2]; exact hhash)
          hne
          (by cases b <;> rfl)
      refine ⟨e', ?_, ?_, ?_, h4, h5, h6⟩
      · exact hfold ▸ h1
      · cases b
        · have hc : List.count true (false :: bs) = List.count true bs := by simp
          have hs : (stepEntry e false now).success_count = e.success_count := rfl
          rw [h2, hs, hc]
        · have hc : List.count true (true :: bs) = List.count true bs + 1 := by simp
          have hs : (stepEntry e true now).success_count = e.success_count + 1 := rfl
          rw [h2, hs, hc]
          omega
      · cases b
        · have hc : List.count false (false :: bs) = List.count false bs + 1 := by
            simp
          have hs : (stepEntry e false now).failure_count = e.failure_count + 1 := rfl
          rw [h3, hs, hc]
          omega
        · have hc : List.count false (true :: bs) = List.count false bs := by simp
          have hs : (stepEntry e true now).failure_count = e.failure_count := rfl
          rw [h3, hs, hc]

/-- C6: the registry's confidence score is the exact Beta posterior mean
with `alpha = beta = 1`: a freshly registered entry has confidence
exactly `1/2` with zeroed counters, and after any sequence of matching
success/failure attestations the entry's confidence is exactly
`(s + 1) / (s + f + 2)` for its accumulated counts `s` and `f`. -/
theorem registry_confidence_is_beta_posterior_mean
    (reg : Registry) (skill : JadeSkill) (url : String) (now : ℚ)
    (flags : List Bool)
    (hnone : reg.entries.lookup skill.skill_id = none) :
    ((reg.register skill url now).2.confidence_score = 1/2
      ∧ (reg.register skill url now).2.success_count = 0
      ∧ (reg.register skill url now).2.failure_count = 0)
    ∧ ∃ e' : RegistryEntry,
        ((reg.register skill url now).1.submitMany
            (flags.map (mkSubmission skill.skill_id skill.compute_hash))
            now).entries.lookup skill.skill_id = some e'
        ∧ e'.success_count = flags.count true
        ∧ e'.failure_count = flags.count false
        ∧ e'.confidence_score
            = ((flags.count true : ℚ) + 1)
              / ((flags.count true : ℚ) + (flags.count false : ℚ) + 2) := by
  have hreg : reg.register skill url now =
      ({ entries := updAssoc reg.entries skill.skill_id
           { skill_id := skill.skill_id, skill_hash := skill.compute_hash,
             confidence_score := compute_initial_confidence,
             success_count := 0, failure_count := 0,
             last_verified := now, source_url := url },
         attestations := setdefaultNil reg.attestations skill.skill_id },
       { skill_id := skill.skill_id, skill_hash := skill.compute_hash,
         confidence_score := compute_initial_confidence,
         success_count := 0, failure_count := 0,
         last_verified := now, source_url := url }) := by
    simp only [Registry.register, hnone]
  constructor
  · rw [hreg]
    refine ⟨?_, rfl, rfl⟩
    show compute_initial_confidence = 1/2
    rw [compute_initial_confidence, bayesian_confidence, PRIOR_ALPHA, PRIOR_BETA]
    norm_num
  · obtain ⟨e', h1, h2, h3, h4, h5, h6⟩ :=
      submitMany_matching flags (reg.register skill url now).1
        skill.skill_id skill.compute_hash (reg.register skill url now).2 now
        (by rw [hreg]; exact lookup_updAssoc_self _ _ _)
        (by rw [hreg])
        (by rw [hreg])
        (compute_hash_ne_empty skill)
        (by rw [hreg]
            show compute_initial_confidence = bayesian_confidence 0 0
            rfl)
    have hs0 : (reg.register skill url now).2.success_count = 0 := by rw [hreg]
    have hf0 : (reg.register skill url now).2.failure_count = 0 := by rw [hreg]
    rw [hs0] at h2
    rw [hf0] at h3
    refine ⟨e', h1, by rw [h2]; omega, by rw [h3]; omega, ?_⟩
    rw [h6, h2, h3, bayesian_confidence, PRIOR_ALPHA, PRIOR_BETA]
    push_cast
    ring_nf

/-- The empty registry of the C6 witness scenario. -/
def c6Reg : Registry := {}

/-- C6 witness: registering the minimal skill in an empty registry gives
confidence exactly `1/2`; after ten successful matching attestations the
stored confidence is `(10 + 1) / (10 + 0 + 2) = 11/12` exactly. -/
theorem registry_confidence_is_beta_posterior_mean_witness :
    c6Reg.entries.lookup witSkill.skill_id = none
    ∧ (((c6Reg.register witSkill "" 0).2.confidence_score = 1/2
        ∧ (c6Reg.register witSkill "" 0).2.success_count = 0
        ∧ (c6Reg.register witSkill "" 0).2.failure_count = 0)
      ∧ ∃ e' : RegistryEntry,
        ((c6Reg.register witSkill "" 0).1.submitMany
            ((List.replicate 10 true).map
              (mkSubmission witSkill.skill_id witSkill.compute_hash))
            0).entries.lookup witSkill.skill_id = some e'
        ∧ e'.success_count = (List.replicate 10 true).count true
        ∧ e'.failure_count = (List.replicate 10 true).count false
        ∧ e'.confidence_score
            = (((List.replicate 10 true).count true : ℚ) + 1)
              / (((List.replicate 10 true).count true : ℚ)
                  + (((List.replicate 10 true).count false : ℚ)) + 2))
    ∧ (((List.replicate 10 true).count true : ℚ) + 1)
        / (((List.replicate 10 true).count true : ℚ)
            + (((List.replicate 10 true).count false : ℚ)) + 2) = 11/12 :=
  ⟨rfl,
   registry_confidence_is_beta_posterior_mean c6Reg witSkill "" 0
     (List.replicate 10 true) rfl,
   by norm_num [List.count_replicate]⟩

/-! ### `security.py` — executable-code and dangerous-command scanning

The security engine compiles its pattern catalogs with `re.IGNORECASE`
and runs `pattern.search` over every string value extracted from the
DAG node parameters.  The patterns use a small regex vocabulary —
case-insensitive literals, character classes, `\\b`, `\\s*`, `\\s+` and
`.*` — embedded here as `RAtom` lists with a leftmost, greedy
backtracking matcher mirroring Python `re` semantics for this
vocabulary.  `\\w`/`\\s` are modelled on their ASCII ranges (every
pattern and every string the claims mention is ASCII). -/

/-- One regex atom of the security patterns. -/
inductive RAtom where
  | lit (c : Char) : RAtom
  | cls (cs : List Char) : RAtom
  | wb : RAtom
  | wsStar : RAtom
  | wsPlus : RAtom
  | dotStar : RAtom
deriving DecidableEq, Repr

/-- Python `\\w` (ASCII range). -/
def isPyWordChar (c : Char) : Bool := c.isAlphanum || c = '_'

/-- Python `\\s` (ASCII range: space, tab, newline, carriage return,
vertical tab, form feed). -/
def isPySpace (c : Char) : Bool :=
  c = ' ' || c = '\t' || c = '\n' || c = '\r' || c.toNat = 11 || c.toNat = 12

/-- Case-insensitive character comparison (`re.IGNORECASE`). -/
def charEqCI (a b : Char) : Bool := a.toLower = b.toLower

/-- Whether an optional character is a word character (`none` stands
for the string edge). -/
def optIsWord : Option Char → Bool
  | some c => isPyWordChar c
  | none => false

/-- The matcher, on `(previous character, remaining input)`, returning
the number of consumed characters of the leftmost-greedy match at this
position.  Structural recursion on explicit fuel; every step strictly
decreases `remaining + atoms`, so `matchAtoms` below always passes
enough fuel. -/
def matchAtomsF : Nat → List RAtom → Option Char → List Char → Option Nat
  | 0, _, _, _ => none
  | _ + 1, [], _, _ => some 0
  | _ + 1, .lit _ :: _, _, [] => none
  | fuel + 1, .lit c :: as, _, d :: rest =>
      if charEqCI c d then (matchAtomsF fuel as (some d) rest).map (· + 1) else none
  | _ + 1, .cls _ :: _, _, [] => none
  | fuel + 1, .cls cs :: as, _, d :: rest =>
      if cs.any (charEqCI · d) then (matchAtomsF fuel as (some d) rest).map (· + 1)
      else none
  | fuel + 1, .wb :: as, prev, rest =>
      if optIsWord prev != optIsWord rest.head? then matchAtomsF fuel as prev rest
      else none
  | fuel + 1, .wsStar :: as, prev, [] => matchAtomsF fuel as prev []
  | fuel + 1, .wsStar :: as, prev, d :: rest =>
      if isPySpace d then
        match matchAtomsF fuel (.wsStar :: as) (some d) rest with
        | some n => some (n + 1)
        | none => matchAtomsF fuel as prev (d :: rest)
      else matchAtomsF fuel as prev (d :: rest)
  | _ + 1, .wsPlus :: _, _, [] => none
  | fuel + 1, .wsPlus :: as, _, d :: rest =>
      if isPySpace d then (matchAtomsF fuel (.wsStar :: as) (some d) rest).map (· + 1)
      else none
  | fuel + 1, .dotStar :: as, prev, [] => matchAtomsF fuel as prev []
  | fuel + 1, .dotStar :: as, prev, d :: rest =>
      if d != '\n' then
        match matchAtomsF fuel (.dotStar :: as) (some d) rest with
        | some n => some (n + 1)
        | none => matchAtomsF fuel as prev (d :: rest)
      else matchAtomsF fuel as prev (d :: rest)

/-- Match a pattern at one position. -/
def matchAtoms (as : List RAtom) (prev : Option Char) (rest : List Char) : Option Nat :=
  matchAtomsF (rest.length + as.length + 1) as prev rest

/-- `pattern.search`: try each position left to right and return the
matched text (`match.group()`) of the first position that matches. -/
def searchGroup (re : List RAtom) : Option Char → List Char → Option (List Char)
  | prev, rest =>
      match matchAtoms re prev rest with
      | some n => some (rest.take n)
      | none =>
          match rest with
          | [] => none
          | d :: rest2 => searchGroup re (some d) rest2

/-- `pattern.search(value)` over a string, returning the match text. -/
def reSearch (re : List RAtom) (s : String) : Option String :=
  (searchGroup re none s.data).map fun cs => ⟨cs⟩

/-- Literal pattern text (each character case-insensitive). -/
def lits (s : String) : List RAtom := s.data.map RAtom.lit

/-- `EXECUTABLE_CODE_PATTERNS` (security.py lines 28–51), one entry per
authored regex, in order. -/
def EXECUTABLE_CODE_PATTERNS : List (List RAtom) :=
  [[.wb] ++ lits "exec" ++ [.wsStar, .lit '('],
   [.wb] ++ lits "eval" ++ [.wsStar, .lit '('],
   [.wb] ++ lits "import" ++ [.wsPlus],
   [.wb] ++ lits "__import__" ++ [.wsStar, .lit '('],
   [.wb] ++ lits "os" ++ [.lit '.'] ++ lits "system" ++ [.wsStar, .lit '('],
   [.wb] ++ lits "subprocess" ++ [.wb],
   [.wb] ++ lits "compile" ++ [.wsStar, .lit '('],
   lits "<script" ++ [.wb],
   lits "javascript:",
   [.wb] ++ lits "Function" ++ [.wsStar, .lit '('],
   [.wb] ++ lits "setTimeout" ++ [.wsStar, .lit '('],
   [.wb] ++ lits "setInterval" ++ [.wsStar, .lit '('],
   [.wb] ++ lits "child_process" ++ [.wb],
   [.wb] ++ lits "require" ++ [.wsStar, .lit '(', .wsStar, .cls ['"', '\'']]
     ++ lits "child_process",
   [.wb] ++ lits "system" ++ [.wsStar, .lit '('],
   [.wb] ++ lits "popen" ++ [.wsStar, .lit '('],
   [.wb] ++ lits "ShellExecute" ++ [.wb],
   [.wb] ++ lits "WScript" ++ [.wb],
   [.wb] ++ lits "powershell" ++ [.wb],
   [.wb] ++ lits "cmd" ++ [.lit '.'] ++ lits "exe" ++ [.wb],
   [.wb, .lit '/'] ++ lits "bin" ++ [.lit '/'] ++ lits "sh" ++ [.wb],
   [.wb, .lit '/'] ++ lits "bin" ++ [.lit '/'] ++ lits "bash" ++ [.wb]]

/-- `DANGEROUS_COMMANDS` (security.py lines 54–82), one entry per
authored regex, in order.  In the fork-bomb pattern the authored `()`
is an empty regex group (it matches the empty string), so it
contributes no atoms here. -/
def DANGEROUS_COMMANDS : List (List RAtom) :=
  [[.wb] ++ lits "rm" ++ [.wsPlus] ++ lits "-rf" ++ [.wb],
   [.wb] ++ lits "rm" ++ [.wsPlus] ++ lits "-fr" ++ [.wb],
   [.wb] ++ lits "mkfs" ++ [.wb],
   [.wb] ++ lits "dd" ++ [.wsPlus] ++ lits "if=",
   [.wb] ++ lits "format" ++ [.wsPlus, .cls ['c', 'C', 'd', 'D'], .lit ':'],
   [.wb] ++ lits "fdisk" ++ [.wb],
   [.wb] ++ lits "chmod" ++ [.wsPlus] ++ lits "777" ++ [.wb],
   [.wb] ++ lits "chmod" ++ [.wsPlus] ++ lits "-R" ++ [.wsPlus] ++ lits "777"
     ++ [.wb],
   [.wb, .lit ':'] ++ lits "\x7b :|:& \x7d;:",
   [.wb] ++ lits "shutdown" ++ [.wb],
   [.wb] ++ lits "reboot" ++ [.wb],
   [.wb] ++ lits "init" ++ [.wsPlus] ++ lits "0" ++ [.wb],
   [.wb] ++ lits "halt" ++ [.wb],
   [.wb] ++ lits "killall" ++ [.wb],
   [.wb] ++ lits "iptables" ++ [.wsPlus] ++ lits "-F" ++ [.wb],
   [.wb] ++ lits "sudo" ++ [.wsPlus],
   [.wb] ++ lits "su" ++ [.wsPlus, .lit '-', .wb],
   [.wb] ++ lits "crontab" ++ [.wb],
   [.wb] ++ lits "wget" ++ [.wsPlus, .dotStar, .lit '|', .wsStar] ++ lits "sh"
     ++ [.wb],
   [.wb] ++ lits "curl" ++ [.wsPlus, .dotStar, .lit '|', .wsStar] ++ lits "sh"
     ++ [.wb],
   [.wb] ++ lits "curl" ++ [.wsPlus, .dotStar, .lit '|', .wsStar] ++ lits "bash"
     ++ [.wb],
   [.wb] ++ lits "nc" ++ [.wsPlus, .lit '-', .cls ['e', 'l']],
   [.wb] ++ lits "ncat" ++ [.wb],
   [.wb] ++ lits "telnet" ++ [.wb],
   [.wb] ++ lits "ssh" ++ [.wsPlus, .dotStar, .lit '@'],
   [.wb] ++ lits "scp" ++ [.wsPlus],
   [.wb] ++ lits "rsync" ++ [.wsPlus, .dotStar, .lit '@']]

mutual

/-- `SecurityEngine._walk_dict`: collect every string value with its
JSON path. -/
def walkStrings (path : String) : Json → List (String × String)
  | .str s => [(path, s)]
  | .obj fields => walkStringsObj path fields
  | .arr items => walkStringsArr path 0 items
  | _ => []
termination_by structural j => j

/-- `_walk_dict` over the fields of an object, in insertion order. -/
def walkStringsObj (path : String) : List (String × Json) → List (String × String)
  | [] => []
  | (k, v) :: rest =>
      walkStrings (path ++ "." ++ k) v ++ walkStringsObj path rest
termination_by structural l => l

/-- `_walk_dict` over the elements of an array, with indices. -/
def walkStringsArr (path : String) (i : Nat) : List Json → List (String × String)
  | [] => []
  | v :: rest =>
      walkStrings (path ++ "[" ++ toString i ++ "]") v
        ++ walkStringsArr path (i + 1) rest
termination_by structural l => l

end

/-- `SecurityEngine._extract_all_strings`: walk every node's `params`
under the path `execution_dag.nodes[i].params`. -/
def extract_all_strings (skill : JadeSkill) : List (String × String) :=
  skill.execution_dag.nodes.enum.flatMap fun p =>
    walkStrings ("execution_dag.nodes[" ++ toString p.1 ++ "].params") p.2.params

/-- `SecurityEngine.check_no_executable_code` (security.py lines
147–163): one error issue per `(string value, matching pattern)`
pair. -/
def check_no_executable_code (skill : JadeSkill) : List ValidationIssue :=
  (extract_all_strings skill).flatMap fun pv =>
    EXECUTABLE_CODE_PATTERNS.filterMap fun pat =>
      (reSearch pat pv.2).map fun grp =>
        { severity := .error, code := "SEC_EXEC_CODE",
          message := "Executable code pattern detected: '" ++ grp
            ++ "'. JADE skills must be non-Turing-complete.",
          path := pv.1 }

/-- `SecurityEngine.check_dangerous_patterns` (security.py lines
165–180). -/
def check_dangerous_patterns (skill : JadeSkill) : List ValidationIssue :=
  (extract_all_strings skill).flatMap fun pv =>
    DANGEROUS_COMMANDS.filterMap fun pat =>
      (reSearch pat pv.2).map fun grp =>
        { severity := .error, code := "SEC_DANGEROUS_CMD",
          message := "Dangerous system command detected: '" ++ grp ++ "'",
          path := pv.1 }

/-! ### C2 — security scanning fails closed on the literal strings -/

/-- The authored pattern `\\beval\\s*\\(` of `EXECUTABLE_CODE_PATTERNS`. -/
def evalPat : List RAtom := [.wb] ++ lits "eval" ++ [.wsStar, .lit '(']

/-- The authored pattern `\\bsudo\\s+` of `DANGEROUS_COMMANDS`. -/
def sudoPat : List RAtom := [.wb] ++ lits "sudo" ++ [.wsPlus]

/-- Supporting result for the C2 assessment: the security engine itself
does flag the literals.  Any skill carrying the literal string
`eval('1+1')` among the recursively extracted string values of its DAG
node parameters gets at least one error-severity `SEC_EXEC_CODE` issue
from the executable-code check; likewise `sudo rm -rf /` gets an
error-severity `SEC_DANGEROUS_CMD` issue from the dangerous-command
check; and any error-severity issue among a run's collected issues
forces the assembled `ValidationResult` to `valid = false`.  The claim
itself fails elsewhere: `validate_dict` can raise before these checks
ever run (see below). -/
theorem security_literals_fail_closed (skill : JadeSkill) :
    ("eval('1+1')" ∈ (extract_all_strings skill).map Prod.snd →
      ∃ i ∈ check_no_executable_code skill,
        i.severity = ValidationSeverity.error ∧ i.code = "SEC_EXEC_CODE")
    ∧ ("sudo rm -rf /" ∈ (extract_all_strings skill).map Prod.snd →
      ∃ i ∈ check_dangerous_patterns skill,
        i.severity = ValidationSeverity.error ∧ i.code = "SEC_DANGEROUS_CMD")
    ∧ (∀ (issues : List ValidationIssue) (hash : String) (now : ℚ),
        (∃ i ∈ issues, i.severity = ValidationSeverity.error) →
        (mkValidationResult issues hash now).valid = false) := by
  refine ⟨?_, ?_, ?_⟩
  · intro hmem
    obtain ⟨pv, hpv, hval⟩ := List.mem_map.mp hmem
    have hpat : evalPat ∈ EXECUTABLE_CODE_PATTERNS := by decide
    have hf : (reSearch evalPat pv.2).map
        (fun grp => ({ severity := .error, code := "SEC_EXEC_CODE",
                       message := "Executable code pattern detected: '" ++ grp
                         ++ "'. JADE skills must be non-Turing-complete.",
                       path := pv.1 } : ValidationIssue))
        = some { severity := .error, code := "SEC_EXEC_CODE",
                 message := "Executable code pattern detected: '" ++ "eval("
                   ++ "'. JADE skills must be non-Turing-complete.",
                 path := pv.1 } := by
      rw [hval]
      have hs : reSearch evalPat "eval('1+1')" = some "eval(" := by decide
      rw [hs]
      rfl
    exact ⟨_, List.mem_flatMap.mpr
      ⟨pv, hpv, List.mem_filterMap.mpr ⟨evalPat, hpat, hf⟩⟩, rfl, rfl⟩
  · intro hmem
    obtain ⟨pv, hpv, hval⟩ := List.mem_map.mp hmem
    have hpat : sudoPat ∈ DANGEROUS_COMMANDS := by decide
    have hf : (reSearch sudoPat pv.2).map
        (fun grp => ({ severity := .error, code := "SEC_DANGEROUS_CMD",
                       message := "Dangerous system command detected: '"
                         ++ grp ++ "'",
                       path := pv.1 } : ValidationIssue))
        = some { severity := .error, code := "SEC_DANGEROUS_CMD",
                 message := "Dangerous system command detected: '"
                   ++ "sudo " ++ "'",
                 path := pv.1 } := by
      rw [hval]
      have hs : reSearch sudoPat "sudo rm -rf /" = some "sudo " := by decide
      rw [hs]
      rfl
    exact ⟨_, List.mem_flatMap.mpr
      ⟨pv, hpv, List.mem_filterMap.mpr ⟨sudoPat, hpat, hf⟩⟩, rfl, rfl⟩
  · intro issues hash now ⟨i, hi, hsev⟩
    have hany : (issues.any fun i =>
        decide (i.severity = ValidationSeverity.error)) = true :=
      List.any_eq_true.mpr ⟨i, hi, by simp [hsev]⟩
    simp [mkValidationResult, hany]

/-! ### C2 — `validate_dict` raises before the security step

Steps 4–5 of `validate_dict` (validator.py lines 166–186) run ahead of
the security step 9.  The `PARSE_ERROR` issue of step 4 and the
`UNSUPPORTED_VERSION` error issue of `_check_version` (lines 226–235)
are both built with a `hint=` keyword argument, so on a skill whose
`jade_version` does not match `^1\.\d+\.\d+$` the call raises
`TypeError` before the security engine is consulted — even when the
node parameters contain `eval('1+1')`. -/

/-- Greedily consume leading `\d` characters (ASCII digits, the
decimal-digit case of Python's `\d` that version strings use). -/
def dropDigits : List Char → List Char
  | [] => []
  | c :: rest => if c.isDigit then dropDigits rest else c :: rest

/-- Python's `$`: end of the string, or just before one trailing
newline. -/
def atPyLineEnd : List Char → Bool
  | [] => true
  | c :: rest => c = '\n' && rest = []

/-- `JADE_VERSION_PATTERN.match`, the anchored pattern
`^1\.\d+\.\d+$` (validator.py line 50); `\d+` needs no backtracking
against the following literal `.` or `$`. -/
def jadeVersionMatch (s : String) : Bool :=
  match s.data with
  | '1' :: '.' :: c :: rest =>
      if c.isDigit then
        match dropDigits rest with
        | '.' :: d :: rest2 =>
            if d.isDigit then atPyLineEnd (dropDigits rest2) else false
        | _ => false
      else false
  | _ => false

/-- `JadeValidator.SUPPORTED_VERSIONS` (validator.py line 47). -/
def SUPPORTED_VERSIONS : List String := ["1.0.0"]

/-- Python `str(e)` of an embedded exception: its message. -/
def pyErrorStr : PyError → String
  | .typeError msg => msg
  | .attributeError msg => msg
  | .valueError msg => msg

/-- `JadeValidator._check_version` (validator.py lines 224–243): a
version not matching the pattern builds an error `ValidationIssue`
passing `hint=` (raising `TypeError`); a matching but unsupported
version builds a warning without a hint. -/
def check_version (skill : JadeSkill) : Except PyError (List ValidationIssue) :=
  if jadeVersionMatch skill.jade_version = false then do
    let issue ← mkValidationIssue .error "UNSUPPORTED_VERSION"
      ("jade_version '" ++ skill.jade_version
        ++ "' must match pattern '1.x.x'. Supported versions: \x7b'1.0.0'\x7d")
      "jade_version" (some "Use \"jade_version\": \"1.0.0\"")
    pure [issue]
  else if skill.jade_version ∈ SUPPORTED_VERSIONS then
    pure []
  else do
    let issue ← mkValidationIssue .warning "UNSUPPORTED_VERSION"
      ("jade_version '" ++ skill.jade_version
        ++ "' is not in supported versions: \x7b'1.0.0'\x7d")
      "jade_version" none
    pure [issue]

/-- Steps 4–5 of `validate_dict` (validator.py lines 166–186), the part
of the pipeline between the required-field check and the remaining
steps: parse into the model (`parse` abstracts `JadeSkill.from_dict`;
its `except Exception` handler builds a `PARSE_ERROR` issue with a
`hint=` keyword) and then the protocol-version check; `rest` abstracts
steps 6–10 (metadata, trigger, DAG, security, semantics) with the
result assembly. -/
def validate_dict_steps
    (parse : Json → Except PyError JadeSkill)
    (rest : JadeSkill → List ValidationIssue → Except PyError ValidationResult)
    (now : ℚ) (data : Json) (issues : List ValidationIssue) :
    Except PyError ValidationResult :=
  match parse data with
  | .error e => do
      let issue ← mkValidationIssue .error "PARSE_ERROR"
        ("Failed to parse skill: " ++ pyErrorStr e) ""
        (some ("Check that all required fields exist and have correct types. "
          ++ "Run: jade verify examples/hello_world.json to see a working example."))
      pure { valid := false, issues := [issue], skill_hash := "", checked_at := now }
  | .ok skill => do
      let vIssues ← check_version skill
      rest skill (issues ++ vIssues)

theorem check_required_fields_go_allPresent (data : Json) :
    ∀ l : List String, (∀ f ∈ l, data.hasKey f = true) →
      check_required_fields_go data l = .ok [] := by
  intro l
  induction l with
  | nil => intro _; rfl
  | cons f rest ih =>
      intro h
      rw [check_required_fields_go, if_pos (h f (List.mem_cons_self f rest))]
      exact ih fun g hg => h g (List.mem_cons_of_mem f hg)

/-- C2: the claim says every skill whose node parameters contain the
literal `eval('1+1')` fails validation with an error-severity
`SEC_EXEC_CODE` issue (regardless of any other field's validity).  The
code diverges on part of that domain: with all required fields present
but a `jade_version` not matching `1.x.x`, `_check_version` passes a
`hint=` keyword to the hint-less `ValidationIssue` dataclass, so
`validate_dict` raises `TypeError` — for every parse outcome of the
document and every continuation `rest`, i.e. before the security step
inside `rest` could ever run — and no `SEC_EXEC_CODE` issue or failing
verdict is produced.  (The engine-level checks themselves do flag the
literals: `security_literals_fail_closed`.) -/
theorem validate_dict_exec_literal_raises_typeError
    (parse : Json → Except PyError JadeSkill)
    (rest : JadeSkill → List ValidationIssue → Except PyError ValidationResult)
    (now : ℚ) (data : Json) (skill : JadeSkill)
    (hreq : ∀ f ∈ requiredFields, data.hasKey f = true)
    (hparse : parse data = .ok skill)
    (hlit : "eval('1+1')" ∈ (extract_all_strings skill).map Prod.snd)
    (hver : jadeVersionMatch skill.jade_version = false) :
    validate_dict_with (validate_dict_steps parse rest now) now data
      = .error (.typeError
          "ValidationIssue.__init__ got an unexpected keyword argument hint") := by
  rw [validate_dict_with, check_required_fields,
      check_required_fields_go_allPresent data requiredFields hreq]
  show validate_dict_steps parse rest now data [] = _
  simp only [validate_dict_steps, hparse]
  rw [check_version, if_pos hver]
  rfl

/-- The concrete skill of the C2 divergence: `eval('1+1')` in a node's
parameters, `jade_version` `"2.0.0"`. -/
def c2Skill : JadeSkill :=
  { jade_version := "2.0.0", skill_id := "c2_skill",
    metadata := { name := "C2", version := "1.0.0", description := "d",
                  author := "a", tags := [] },
    trigger := { type := .manual, conditions := [] },
    execution_dag := { nodes := [{ id := "n1", action := "run",
                                   params := Json.obj
                                     [("cmd", Json.str "eval('1+1')")] }],
                       edges := [], entry_node := "n1", exit_node := ["n1"] },
    security := { network_whitelist := [], file_read_paths := [],
                  file_write_paths := [], max_execution_time_ms := 1000,
                  max_retries := 0, sandbox_level := .strict,
                  dangerous_patterns := [], env_whitelist := [] } }

/-- The parsed document of the C2 divergence: all six required
top-level fields present. -/
def c2Data : Json :=
  Json.obj
    [("jade_version", Json.str "2.0.0"), ("skill_id", Json.str "c2_skill"),
     ("metadata", Json.obj []), ("trigger", Json.obj []),
     ("execution_dag", Json.obj []), ("security", Json.obj [])]

/-- C2 witness: the divergence theorem applied at the concrete
document and skill. -/
theorem validate_dict_exec_literal_raises_typeError_witness :
    (∀ f ∈ requiredFields, c2Data.hasKey f = true)
    ∧ "eval('1+1')" ∈ (extract_all_strings c2Skill).map Prod.snd
    ∧ jadeVersionMatch c2Skill.jade_version = false
    ∧ validate_dict_with
        (validate_dict_steps (fun _ => .ok c2Skill)
          (fun _ _ => .ok { valid := true }) 0) 0 c2Data
      = .error (.typeError
          "ValidationIssue.__init__ got an unexpected keyword argument hint") :=
  ⟨by decide, by decide, by decide,
   validate_dict_exec_literal_raises_typeError (fun _ => .ok c2Skill)
     (fun _ _ => .ok { valid := true }) 0 c2Data c2Skill
     (by decide) rfl (by decide) (by decide)⟩

/-! ### `dag.py` — Kahn topological ordering

`DAGAnalyzer.get_topological_order` (dag.py lines 307–331).  The
`in_degree` and `adj` dicts are embedded as total functions over the
node-id domain; Python would raise `KeyError` when decrementing the
in-degree of an edge target that is not a node, so the theorems below
hypothesize the well-formedness (distinct node ids, edges between
existing nodes) that the validator guarantees — within that domain the
total-function embedding agrees with the dicts.  The `while queue`
loop runs on explicit fuel `|nodes| + |edges| + 1`: every pop consumes
one queued element and each element is enqueued at most once (the
initial zero-in-degree nodes once each, every other node only at the
moment its counter reaches zero), so the queue always empties before
the fuel does. -/

/-- One adjacency-entry iteration of the inner `for neighbor` loop:
decrement the neighbour's in-degree and enqueue it if the counter
reached exactly zero. -/
def decStep (st : (String → Int) × List String) (nb : String) :
    (String → Int) × List String :=
  let d2 : String → Int := fun x => if x = nb then st.1 x - 1 else st.1 x
  (d2, if d2 nb = 0 then st.2 ++ [nb] else st.2)

/-- The `while queue` loop of `get_topological_order`. -/
def kahnLoop (adj : String → List String) :
    Nat → (String → Int) → List String → List String → List String
  | 0, _, _, order => order
  | _ + 1, _, [], order => order
  | fuel + 1, deg, current :: rest, order =>
      let st := (adj current).foldl decStep (deg, rest)
      kahnLoop adj fuel st.1 st.2 (order ++ [current])

/-- `DAGAnalyzer.get_topological_order`. -/
def get_topological_order (dag : ExecutionDAG) : List String :=
  let ids := dag.nodes.map (fun n => n.id)
  let deg := dag.edges.foldl
    (fun d e => if e.to_node ∈ ids then
        (fun x => if x = e.to_node then d x + 1 else d x) else d)
    (fun _ => (0 : Int))
  let adj := dag.edges.foldl
    (fun a e => if e.from_node ∈ ids then
        (fun x => if x = e.from_node then a x ++ [e.to_node] else a x) else a)
    (fun _ => ([] : List String))
  let queue := ids.filter (fun n => deg n == 0)
  let order := kahnLoop adj (ids.length + dag.edges.length + 1) deg queue []
  if order.length ≠ dag.nodes.length then [] else order

/-- The node-id list of a DAG. -/
def dagIds (dag : ExecutionDAG) : List String :=
  dag.nodes.map (fun n => n.id)

/-- The edge relation of a DAG. -/
def edgeRel (dag : ExecutionDAG) (u v : String) : Prop :=
  ∃ e ∈ dag.edges, e.from_node = u ∧ e.to_node = v

/-- Well-formedness as the validator guarantees it: distinct node ids
and every edge endpoint an existing node. -/
def DagWellFormed (dag : ExecutionDAG) : Prop :=
  (dagIds dag).Nodup
  ∧ ∀ e ∈ dag.edges, e.from_node ∈ dagIds dag ∧ e.to_node ∈ dagIds dag

/-- Acyclicity: no nonempty edge path from a node to itself. -/
def DagAcyclic (dag : ExecutionDAG) : Prop :=
  ∀ v, ¬ Relation.TransGen (edgeRel dag) v v

/-- Edges into `x` whose source is not yet processed (with
multiplicity). -/
def countEdgesInto (edges : List DAGEdge) (processed : List String) (x : String) : Nat :=
  (edges.filter fun e =>
    e.to_node == x && !(decide (e.from_node ∈ processed))).length

/-! ### C9 — counting lemmas -/

theorem filter_length_split {α : Type} (p q : α → Bool) :
    ∀ l : List α, (l.filter p).length
      = (l.filter fun a => p a && q a).length
        + (l.filter fun a => p a && !q a).length := by
  intro l
  induction l with
  | nil => rfl
  | cons a rest ih =>
      by_cases hp : p a = true
      · by_cases hq : q a = true
        · simp [List.filter_cons, hp, hq, ih]
          omega
        · simp only [Bool.not_eq_true] at hq
          simp [List.filter_cons, hp, hq, ih]
          omega
      · simp only [Bool.not_eq_true] at hp
        simp [List.filter_cons, hp, ih]

theorem count_adj (u x : String) :
    ∀ edges : List DAGEdge,
      List.count x ((edges.filter fun e => e.from_node == u).map
          fun e => e.to_node)
        = (edges.filter fun e => e.from_node == u && e.to_node == x).length := by
  intro edges
  induction edges with
  | nil => rfl
  | cons e rest ih =>
      by_cases hu : e.from_node = u
      · by_cases hx : e.to_node = x
        · simp [List.filter_cons, hu, hx, List.count_cons, ih]
        · simp [List.filter_cons, hu, hx, List.count_cons, ih]
      · simp [List.filter_cons, hu, ih]

theorem countEdgesInto_append_current (edges : List DAGEdge)
    (order : List String) (current : String) (hc : current ∉ order) (x : String) :
    countEdgesInto edges order x
      = countEdgesInto edges (order ++ [current]) x
        + (edges.filter fun e => e.from_node == current && e.to_node == x).length := by
  rw [countEdgesInto, countEdgesInto]
  rw [filter_length_split (fun e => e.to_node == x && !(decide (e.from_node ∈ order)))
    (fun e => e.from_node == current) edges]
  have h1 : edges.filter (fun e =>
      (e.to_node == x && !(decide (e.from_node ∈ order))) && e.from_node == current)
      = edges.filter (fun e => e.from_node == current && e.to_node == x) := by
    apply List.filter_congr
    intro e _
    by_cases hcur : e.from_node = current
    · have hb : (e.from_node == current) = true := beq_iff_eq.mpr hcur
      have hd : (decide (e.from_node ∈ order)) = false := by
        simp only [decide_eq_false_iff_not]
        rw [hcur]; exact hc
      rw [hb, hd]
      cases hbx : (e.to_node == x) <;> simp
    · have hb : (e.from_node == current) = false := beq_eq_false_iff_ne.mpr hcur
      rw [hb]
      simp
  have h2 : edges.filter (fun e =>
      (e.to_node == x && !(decide (e.from_node ∈ order))) && !(e.from_node == current))
      = edges.filter (fun e =>
          e.to_node == x && !(decide (e.from_node ∈ order ++ [current]))) := by
    apply List.filter_congr
    intro e _
    by_cases hcur : e.from_node = current
    · have hb : (e.from_node == current) = true := beq_iff_eq.mpr hcur
      have hd : (decide (e.from_node ∈ order ++ [current])) = true := by
        simp [List.mem_append, hcur]
      rw [hb, hd]
      simp
    · have hb : (e.from_node == current) = false := beq_eq_false_iff_ne.mpr hcur
      have hd : (decide (e.from_node ∈ order ++ [current]))
          = (decide (e.from_node ∈ order)) := by
        by_cases hord : e.from_node ∈ order
        · simp [List.mem_append, hord]
        · simp [List.mem_append, hord, hcur]
      rw [hb, hd]
      simp
  rw [h1, h2]
  omega

/-! ### C9 — initialization of `in_degree` and `adj` -/

theorem kahn_adj_fold (ids : List String) :
    ∀ (edges : List DAGEdge), (∀ e ∈ edges, e.from_node ∈ ids) →
      ∀ (a : String → List String) (u : String),
      (edges.foldl (fun a e => if e.from_node ∈ ids then
          (fun x => if x = e.from_node then a x ++ [e.to_node] else a x) else a) a) u
        = a u ++ (edges.filter fun e => e.from_node == u).map (fun e => e.to_node) := by
  intro edges
  induction edges with
  | nil => intro _ a u; simp
  | cons e rest ih =>
      intro hWF a u
      rw [List.foldl_cons]
      rw [if_pos (hWF e (List.mem_cons_self e rest))]
      rw [ih (fun e2 he2 => hWF e2 (List.mem_cons_of_mem e he2))]
      by_cases hu : e.from_node = u
      · simp [List.filter_cons, hu, List.append_assoc]
      · simp [List.filter_cons, hu, Ne.symm hu]

theorem kahn_deg_fold (ids : List String) :
    ∀ (edges : List DAGEdge) (d : String → Int) (x : String), x ∈ ids →
      (edges.foldl (fun d e => if e.to_node ∈ ids then
          (fun y => if y = e.to_node then d y + 1 else d y) else d) d) x
        = d x + ((edges.filter fun e => e.to_node == x).length : Int) := by
  intro edges
  induction edges with
  | nil => intro d x _; simp
  | cons e rest ih =>
      intro d x hx
      rw [List.foldl_cons]
      by_cases hin : e.to_node ∈ ids
      · rw [if_pos hin, ih _ x hx]
        by_cases hex : e.to_node = x
        · simp [List.filter_cons, hex]
          omega
        · simp [List.filter_cons, hex, Ne.symm hex]
      · rw [if_neg hin, ih _ x hx]
        have hex : ¬ e.to_node = x := fun h => hin (h ▸ hx)
        simp [List.filter_cons, hex, Ne.symm hex]

/-! ### C9 — the inner decrement loop -/

theorem decStep_eq (deg : String → Int) (q : List String) (nb : String) :
    decStep (deg, q) nb
      = (fun x => if x = nb then deg x - 1 else deg x,
         if deg nb - 1 = 0 then q ++ [nb] else q) := by
  simp [decStep]

theorem count_cons_self_str (x : String) (t : List String) :
    List.count x (x :: t) = List.count x t + 1 := by
  simp [List.count_cons]

theorem count_cons_ne_str (x nb : String) (t : List String) (hx : x ≠ nb) :
    List.count x (nb :: t) = List.count x t := by
  simp [List.count_cons, Ne.symm hx]

theorem decFold_deg (nbs : List String) :
    ∀ (deg : String → Int) (q : List String) (x : String),
      ((nbs.foldl decStep (deg, q)).1) x = deg x - (nbs.count x : Int) := by
  induction nbs with
  | nil => intro deg q x; simp
  | cons nb t ih =>
      intro deg q x
      rw [List.foldl_cons, decStep_eq, ih]
      by_cases hx : x = nb
      · subst hx
        rw [if_pos rfl, count_cons_self_str]
        push_cast
        ring
      · rw [if_neg hx, count_cons_ne_str x nb t hx]

theorem decFold_queue_mem (nbs : List String) :
    ∀ (deg : String → Int) (q : List String) (x : String),
      (x ∈ (nbs.foldl decStep (deg, q)).2
        ↔ x ∈ q ∨ (1 ≤ deg x ∧ deg x ≤ (nbs.count x : Int))) := by
  induction nbs with
  | nil =>
      intro deg q x
      simp only [List.foldl_nil, List.count_nil, Nat.cast_zero]
      constructor
      · exact Or.inl
      · rintro (h | ⟨h1, h2⟩)
        · exact h
        · omega
  | cons nb t ih =>
      intro deg q x
      rw [List.foldl_cons, decStep_eq, ih]
      by_cases hx : x = nb
      · subst hx
        rw [if_pos rfl, count_cons_self_str]
        by_cases hz : deg x - 1 = 0
        · rw [if_pos hz]
          constructor
          · intro _
            right
            refine ⟨by omega, ?_⟩
            have h0 : (0:Int) ≤ (t.count x : Int) := Int.natCast_nonneg _
            push_cast
            omega
          · intro _
            exact Or.inl (by simp)
        · rw [if_neg hz]
          constructor
          · rintro (h | ⟨h1, h2⟩)
            · exact Or.inl h
            · refine Or.inr ⟨by omega, ?_⟩
              push_cast
              omega
          · rintro (h | ⟨h1, h2⟩)
            · exact Or.inl h
            · refine Or.inr ⟨by omega, ?_⟩
              push_cast at h2 ⊢
              omega
      · rw [if_neg hx, count_cons_ne_str x nb t hx]
        by_cases hz : deg nb - 1 = 0
        · rw [if_pos hz]
          simp only [List.mem_append, List.mem_singleton]
          constructor
          · rintro (⟨h | h⟩ | ⟨h1, h2⟩)
            · exact Or.inl h
            · exact absurd h hx
            · exact Or.inr ⟨h1, h2⟩
          · rintro (h | ⟨h1, h2⟩)
            · exact Or.inl (Or.inl h)
            · exact Or.inr ⟨h1, h2⟩
        · rw [if_neg hz]

theorem decFold_queue_nodup (nbs : List String) :
    ∀ (deg : String → Int) (q : List String),
      q.Nodup → (∀ x ∈ q, deg x ≤ 0) →
      (nbs.foldl decStep (deg, q)).2.Nodup := by
  induction nbs with
  | nil => intro deg q hq _; simpa using hq
  | cons nb t ih =>
      intro deg q hq hnp
      rw [List.foldl_cons, decStep_eq]
      apply ih
      · by_cases hz : deg nb - 1 = 0
        · rw [if_pos hz]
          apply List.Nodup.append hq (List.nodup_singleton nb)
          intro x hx hx1
          have hxnb : x = nb := List.mem_singleton.mp hx1
          subst hxnb
          have := hnp x hx
          omega
        · rwa [if_neg hz]
      · intro x hx
        by_cases hxnb : x = nb
        · subst hxnb
          rw [if_pos rfl]
          by_cases hz : deg x - 1 = 0
          · omega
          · rw [if_neg hz] at hx
            have := hnp x hx
            omega
        · rw [if_neg hxnb]
          apply hnp
          by_cases hz : deg nb - 1 = 0
          · rw [if_pos hz] at hx
            rcases List.mem_append.mp hx with h | h
            · exact h
            · exact absurd (List.mem_singleton.mp h) hxnb
          · rwa [if_neg hz] at hx


/-! ### invariant -/

def kahnDeg (dag : ExecutionDAG) : String → Int :=
  dag.edges.foldl
    (fun d e => if e.to_node ∈ dagIds dag then
        (fun x => if x = e.to_node then d x + 1 else d x) else d)
    (fun _ => (0 : Int))

def kahnAdj (dag : ExecutionDAG) : String → List String :=
  dag.edges.foldl
    (fun a e => if e.from_node ∈ dagIds dag then
        (fun x => if x = e.from_node then a x ++ [e.to_node] else a x) else a)
    (fun _ => ([] : List String))

def kahnQueue (dag : ExecutionDAG) : List String :=
  (dagIds dag).filter (fun n => kahnDeg dag n == 0)

theorem get_topological_order_eq (dag : ExecutionDAG) :
    get_topological_order dag
      = (if (kahnLoop (kahnAdj dag)
              ((dagIds dag).length + dag.edges.length + 1)
              (kahnDeg dag) (kahnQueue dag) []).length ≠ dag.nodes.length
         then []
         else kahnLoop (kahnAdj dag)
              ((dagIds dag).length + dag.edges.length + 1)
              (kahnDeg dag) (kahnQueue dag) []) := rfl

structure KahnInv (edges : List DAGEdge) (ids : List String)
    (deg : String → Int) (queue order : List String) : Prop where
  qsub : queue ⊆ ids
  osub : order ⊆ ids
  onodup : order.Nodup
  qnodup : queue.Nodup
  hdeg : ∀ x ∈ ids, deg x = (countEdgesInto edges order x : Int)
  qiff : ∀ x ∈ ids, (x ∈ queue ↔ countEdgesInto edges order x = 0 ∧ x ∉ order)
  ozero : ∀ x ∈ order, countEdgesInto edges order x = 0
  resp : ∀ e ∈ edges, ∀ j, order.get? j = some e.to_node →
      ∃ i, i < j ∧ order.get? i = some e.from_node

theorem kahnInv_step (edges : List DAGEdge) (ids : List String)
    (hWF : ∀ e ∈ edges, e.from_node ∈ ids ∧ e.to_node ∈ ids)
    (deg : String → Int) (current : String) (rest order : List String)
    (inv : KahnInv edges ids deg (current :: rest) order)
    (nbs : List String)
    (hnbs : nbs = (edges.filter fun e => e.from_node == current).map
        fun e => e.to_node) :
    KahnInv edges ids (nbs.foldl decStep (deg, rest)).1
      (nbs.foldl decStep (deg, rest)).2 (order ++ [current]) := by
  have hcur_ids : current ∈ ids := inv.qsub (List.mem_cons_self current rest)
  have hcur := (inv.qiff current hcur_ids).mp (List.mem_cons_self current rest)
  have hdeg_cur : deg current = 0 := by
    rw [inv.hdeg current hcur_ids, hcur.1]; rfl
  have hrest_sub : rest ⊆ ids := fun x hx => inv.qsub (List.mem_cons_of_mem current hx)
  have hrest_nodup : rest.Nodup := (List.nodup_cons.mp inv.qnodup).2
  have hcur_rest : current ∉ rest := (List.nodup_cons.mp inv.qnodup).1
  have hcount : ∀ x, nbs.count x
      = (edges.filter fun e => e.from_node == current && e.to_node == x).length := by
    intro x; rw [hnbs]; exact count_adj current x edges
  have hkey : ∀ x, countEdgesInto edges order x
      = countEdgesInto edges (order ++ [current]) x + nbs.count x := by
    intro x; rw [hcount]
    exact countEdgesInto_append_current edges order current hcur.2 x
  have hrest0 : ∀ x ∈ rest, deg x ≤ 0 := by
    intro x hx
    have hxids := hrest_sub hx
    have := (inv.qiff x hxids).mp (List.mem_cons_of_mem current hx)
    rw [inv.hdeg x hxids, this.1]
    simp
  have hmem : ∀ x, x ∈ (nbs.foldl decStep (deg, rest)).2
      ↔ x ∈ rest ∨ (1 ≤ deg x ∧ deg x ≤ (nbs.count x : Int)) :=
    decFold_queue_mem nbs deg rest
  have hdeg2 : ∀ x, (nbs.foldl decStep (deg, rest)).1 x = deg x - (nbs.count x : Int) :=
    decFold_deg nbs deg rest
  refine ⟨?_, ?_, ?_, ?_, ?_, ?_, ?_, ?_⟩
  · -- qsub
    intro x hx
    rcases (hmem x).mp hx with h | ⟨h1, h2⟩
    · exact hrest_sub h
    · have hk : 1 ≤ nbs.count x := by
        by_contra hk
        have : nbs.count x = 0 := by omega
        rw [this] at h2
        simp at h2
        omega
      have hxnbs : x ∈ nbs := List.count_pos_iff_mem.mp (by omega)
      rw [hnbs] at hxnbs
      obtain ⟨e, hef, hex⟩ := List.mem_map.mp hxnbs
      have he : e ∈ edges := List.mem_of_mem_filter hef
      exact hex ▸ (hWF e he).2
  · -- osub
    exact List.append_subset.mpr ⟨inv.osub, by
      intro x hx
      rw [List.mem_singleton.mp hx]
      exact hcur_ids⟩
  · -- onodup
    rw [List.nodup_append]
    refine ⟨inv.onodup, List.nodup_singleton current, ?_⟩
    intro a ha hb
    rw [List.mem_singleton.mp hb] at ha
    exact hcur.2 ha
  · -- qnodup
    exact decFold_queue_nodup nbs deg rest hrest_nodup hrest0
  · -- hdeg
    intro x hx
    rw [hdeg2 x, inv.hdeg x hx, hkey x]
    push_cast
    ring
  · -- qiff
    intro x hx
    rw [hmem x]
    have hk := hkey x
    constructor
    · rintro (h | ⟨h1, h2⟩)
      · have hold := (inv.qiff x hx).mp (List.mem_cons_of_mem current h)
        have hc1 : countEdgesInto edges (order ++ [current]) x = 0 := by omega
        refine ⟨hc1, ?_⟩
        rw [List.mem_append]
        rintro (ho | hcx)
        · exact hold.2 ho
        · rw [List.mem_singleton.mp hcx] at h
          exact hcur_rest h
      · have hdx : deg x = (countEdgesInto edges order x : Int) := inv.hdeg x hx
        have hxo : x ∉ order := by
          intro ho
          have := inv.ozero x ho
          rw [hdx, this] at h1
          simp at h1
        have hxc : x ≠ current := by
          intro hxc
          rw [hxc, hdeg_cur] at h1
          omega
        have hc0 : 1 ≤ countEdgesInto edges order x := by
          rw [hdx] at h1
          exact_mod_cast h1
        have hcle : countEdgesInto edges order x ≤ nbs.count x := by
          rw [hdx] at h2
          exact_mod_cast h2
        refine ⟨by omega, ?_⟩
        rw [List.mem_append]
        rintro (ho | hcx)
        · exact hxo ho
        · exact hxc (List.mem_singleton.mp hcx)
    · rintro ⟨hc1, hnm⟩
      rw [List.mem_append] at hnm
      push_neg at hnm
      obtain ⟨hxo, hxc⟩ := hnm
      have hxc2 : x ≠ current := fun h => hxc (List.mem_singleton.mpr h)
      have hdx : deg x = (countEdgesInto edges order x : Int) := inv.hdeg x hx
      by_cases hk1 : 1 ≤ nbs.count x
      · right
        constructor
        · rw [hdx]
          have : 1 ≤ countEdgesInto edges order x := by omega
          exact_mod_cast this
        · rw [hdx]
          have : countEdgesInto edges order x ≤ nbs.count x := by omega
          exact_mod_cast this
      · left
        have hk0 : nbs.count x = 0 := by omega
        have hc0 : countEdgesInto edges order x = 0 := by omega
        have := (inv.qiff x hx).mpr ⟨hc0, hxo⟩
        rcases List.mem_cons.mp this with h | h
        · exact absurd h hxc2
        · exact h
  · -- ozero
    intro x hxm
    have hk := hkey x
    rcases List.mem_append.mp hxm with ho | hcx
    · have := inv.ozero x ho
      omega
    · rw [List.mem_singleton.mp hcx]
      have := hkey current
      have h0 := hcur.1
      omega
  · -- resp
    intro e he j hj
    rcases Nat.lt_trichotomy j order.length with hlt | heq | hgt
    · rw [List.get?_append hlt] at hj
      obtain ⟨i, hij, hi⟩ := inv.resp e he j hj
      refine ⟨i, hij, ?_⟩
      rw [List.get?_append (lt_trans hij hlt)]
      exact hi
    · subst heq
      rw [List.get?_concat_length] at hj
      have hto : e.to_node = current := (Option.some.inj hj).symm
      have hfrom_in : e.from_node ∈ order := by
        by_contra hfo
        have hmem_f : e ∈ edges.filter (fun e =>
            e.to_node == current && !(decide (e.from_node ∈ order))) := by
          rw [List.mem_filter]
          refine ⟨he, ?_⟩
          rw [Bool.and_eq_true]
          constructor
          · exact beq_iff_eq.mpr hto
          · simp [hfo]
        have : countEdgesInto edges order current ≠ 0 := by
          rw [countEdgesInto]
          intro hlen
          rw [List.length_eq_zero] at hlen
          rw [hlen] at hmem_f
          exact absurd hmem_f (List.not_mem_nil e)
        exact this hcur.1
      obtain ⟨i, hi⟩ := List.mem_iff_get?.mp hfrom_in
      have hilen : i < order.length := (List.get?_eq_some.mp hi).1
      refine ⟨i, hilen, ?_⟩
      rw [List.get?_append hilen]
      exact hi
    · exfalso
      have : (order ++ [current]).get? j = none := by
        apply List.get?_eq_none.mpr
        rw [List.length_append, List.length_singleton]
        omega
      rw [this] at hj
      exact Option.noConfusion hj


/-! ### the loop -/

def KahnPost (edges : List DAGEdge) (ids : List String) (order : List String) : Prop :=
  order ⊆ ids ∧ order.Nodup
  ∧ (∀ e ∈ edges, ∀ j, order.get? j = some e.to_node →
      ∃ i, i < j ∧ order.get? i = some e.from_node)
  ∧ (∀ x ∈ ids, x ∉ order → countEdgesInto edges order x ≠ 0)

theorem kahnLoop_post (edges : List DAGEdge) (ids : List String)
    (hWF : ∀ e ∈ edges, e.from_node ∈ ids ∧ e.to_node ∈ ids)
    (adjF : String → List String)
    (hadj : ∀ u, adjF u = (edges.filter fun e => e.from_node == u).map
        fun e => e.to_node) :
    ∀ (fuel : Nat) (deg : String → Int) (queue order : List String),
      KahnInv edges ids deg queue order →
      ids.length < fuel + order.length →
      KahnPost edges ids (kahnLoop adjF fuel deg queue order) := by
  intro fuel
  induction fuel with
  | zero =>
      intro deg queue order inv hlen
      exfalso
      have h1 := (List.subperm_of_subset inv.onodup inv.osub).length_le
      omega
  | succ fuel ih =>
      intro deg queue order inv hlen
      cases queue with
      | nil =>
          have hred : kahnLoop adjF (fuel + 1) deg [] order = order := rfl
          rw [hred]
          refine ⟨inv.osub, inv.onodup, inv.resp, ?_⟩
          intro x hx hxo hc
          have := (inv.qiff x hx).mpr ⟨hc, hxo⟩
          exact absurd this (List.not_mem_nil x)
      | cons current rest =>
          have hstep := kahnInv_step edges ids hWF deg current rest order inv
            (adjF current) (hadj current)
          have hred : kahnLoop adjF (fuel + 1) deg (current :: rest) order
              = kahnLoop adjF fuel ((adjF current).foldl decStep (deg, rest)).1
                  ((adjF current).foldl decStep (deg, rest)).2 (order ++ [current]) := rfl
          rw [hred]
          apply ih _ _ _ hstep
          rw [List.length_append, List.length_singleton]
          omega

theorem countEdgesInto_nil (edges : List DAGEdge) (x : String) :
    countEdgesInto edges [] x = (edges.filter fun e => e.to_node == x).length := by
  rw [countEdgesInto]
  congr 1
  apply List.filter_congr
  intro e _
  simp

theorem kahn_init (dag : ExecutionDAG) (hwf : DagWellFormed dag) :
    KahnInv dag.edges (dagIds dag) (kahnDeg dag) (kahnQueue dag) [] := by
  obtain ⟨hids, hWF⟩ := hwf
  have hdeg0 : ∀ x ∈ dagIds dag,
      kahnDeg dag x = (countEdgesInto dag.edges [] x : Int) := by
    intro x hx
    rw [kahnDeg, kahn_deg_fold (dagIds dag) dag.edges _ x hx, countEdgesInto_nil]
    simp
  refine ⟨?_, ?_, ?_, ?_, hdeg0, ?_, ?_, ?_⟩
  · intro x hx
    rw [kahnQueue] at hx
    exact List.mem_of_mem_filter hx
  · exact List.nil_subset _
  · exact List.nodup_nil
  · rw [kahnQueue]
    exact hids.filter _
  · intro x hx
    rw [kahnQueue, List.mem_filter]
    constructor
    · rintro ⟨_, hz⟩
      refine ⟨?_, List.not_mem_nil x⟩
      have := beq_iff_eq.mp hz
      rw [hdeg0 x hx] at this
      exact_mod_cast this
    · rintro ⟨hz, _⟩
      refine ⟨hx, ?_⟩
      rw [beq_iff_eq, hdeg0 x hx, hz]
      rfl
  · intro x hx
    exact absurd hx (List.not_mem_nil x)
  · intro e he j hj
    rw [List.get?_eq_none.mpr (by simp)] at hj
    exact Option.noConfusion hj


/-! ### cycles -/

theorem perm_resp_acyclic (dag : ExecutionDAG) (L : List String)
    (hmem : ∀ x ∈ dagIds dag, x ∈ L)
    (hresp : ∀ e ∈ dag.edges, ∀ j, L.get? j = some e.to_node →
        ∃ i, i < j ∧ L.get? i = some e.from_node)
    (hWF : ∀ e ∈ dag.edges, e.from_node ∈ dagIds dag ∧ e.to_node ∈ dagIds dag) :
    DagAcyclic dag := by
  intro v hv
  have hv_ids : v ∈ dagIds dag := by
    cases hv with
    | single h =>
        obtain ⟨e, he, _, hto⟩ := h
        exact hto ▸ (hWF e he).2
    | tail _ h =>
        obtain ⟨e, he, _, hto⟩ := h
        exact hto ▸ (hWF e he).2
  obtain ⟨j, hj⟩ := List.mem_iff_get?.mp (hmem v hv_ids)
  have hchain : ∀ a b, Relation.TransGen (edgeRel dag) a b →
      ∀ j, L.get? j = some b → ∃ i, i < j ∧ L.get? i = some a := by
    intro a b hab
    induction hab with
    | single h =>
        intro j hj
        obtain ⟨e, he, hfrom, hto⟩ := h
        obtain ⟨i, hij, hi⟩ := hresp e he j (by rw [hj, hto])
        rw [hfrom] at hi
        exact ⟨i, hij, hi⟩
    | tail hab h ih =>
        intro j hj
        obtain ⟨e, he, hfrom, hto⟩ := h
        obtain ⟨i, hij, hi⟩ := hresp e he j (by rw [hj, hto])
        rw [hfrom] at hi
        obtain ⟨i2, hi2, hgi2⟩ := ih i hi
        exact ⟨i2, lt_trans hi2 hij, hgi2⟩
  have hdesc : ∀ j, L.get? j = some v → False := by
    intro j
    induction j using Nat.strong_induction_on with
    | _ j ihj =>
        intro hj
        obtain ⟨i, hij, hi⟩ := hchain v v hv j hj
        exact ihj i hij hi
  exact hdesc j hj

theorem stuck_cycle (dag : ExecutionDAG)
    (hWF : ∀ e ∈ dag.edges, e.from_node ∈ dagIds dag ∧ e.to_node ∈ dagIds dag)
    (L : List String)
    (hstuck : ∀ x ∈ dagIds dag, x ∉ L → countEdgesInto dag.edges L x ≠ 0)
    (x₀ : String) (hx₀ : x₀ ∈ dagIds dag) (hx₀L : x₀ ∉ L) :
    ¬ DagAcyclic dag := by
  intro hacyc
  have hpred : ∀ x, ∃ y, (x ∈ dagIds dag ∧ x ∉ L) →
      ((y ∈ dagIds dag ∧ y ∉ L) ∧ edgeRel dag y x) := by
    intro x
    by_cases hx : x ∈ dagIds dag ∧ x ∉ L
    · have hc := hstuck x hx.1 hx.2
      rw [countEdgesInto] at hc
      have hne : dag.edges.filter (fun e =>
          e.to_node == x && !(decide (e.from_node ∈ L))) ≠ [] := by
        intro h
        rw [h] at hc
        exact hc rfl
      obtain ⟨e, he⟩ := List.exists_mem_of_ne_nil _ hne
      obtain ⟨hee, hp⟩ := List.mem_filter.mp he
      rw [Bool.and_eq_true] at hp
      have hto : e.to_node = x := beq_iff_eq.mp hp.1
      have hfL : e.from_node ∉ L := by
        have := hp.2
        simp at this
        exact this
      refine ⟨e.from_node, fun _ => ⟨⟨(hWF e hee).1, hfL⟩, e, hee, rfl, hto⟩⟩
    · exact ⟨x₀, fun h => absurd h hx⟩
  choose pick hpick using hpred
  set seq : ℕ → String := fun n => pick^[n] x₀ with hseq_def
  have hseq : ∀ n, seq n ∈ dagIds dag ∧ seq n ∉ L := by
    intro n
    induction n with
    | zero => exact ⟨hx₀, hx₀L⟩
    | succ n ih =>
        have h := hpick (seq n) ih
        show pick^[n + 1] x₀ ∈ dagIds dag ∧ pick^[n + 1] x₀ ∉ L
        rw [Function.iterate_succ_apply']
        exact h.1
  have hedge : ∀ n, edgeRel dag (seq (n + 1)) (seq n) := by
    intro n
    have h := hpick (seq n) (hseq n)
    show edgeRel dag (pick^[n + 1] x₀) (seq n)
    rw [Function.iterate_succ_apply']
    exact h.2
  have hchain : ∀ m k, Relation.TransGen (edgeRel dag) (seq (m + k + 1)) (seq m) := by
    intro m k
    induction k with
    | zero => exact Relation.TransGen.single (hedge m)
    | succ k ih => exact Relation.TransGen.head (hedge (m + k + 1)) ih
  have hcard : (dagIds dag).toFinset.card
      < (Finset.range ((dagIds dag).length + 1)).card := by
    rw [Finset.card_range]
    exact Nat.lt_succ_of_le ((dagIds dag).toFinset_card_le)
  have hmaps : ∀ n ∈ Finset.range ((dagIds dag).length + 1),
      seq n ∈ (dagIds dag).toFinset :=
    fun n _ => List.mem_toFinset.mpr (hseq n).1
  obtain ⟨a, _, b, _, hab, heq⟩ :=
    Finset.exists_ne_map_eq_of_card_lt_of_maps_to hcard hmaps
  rcases lt_or_gt_of_ne hab with h | h
  · have hc := hchain a (b - a - 1)
    rw [show a + (b - a - 1) + 1 = b from by omega] at hc
    rw [heq] at hc
    exact hacyc (seq b) hc
  · have hc := hchain b (a - b - 1)
    rw [show b + (a - b - 1) + 1 = a from by omega] at hc
    rw [← heq] at hc
    exact hacyc (seq a) hc


/-- C9: for every well-formed execution DAG, `get_topological_order` of an
acyclic DAG is a permutation of the node ids in which every edge's source
appears strictly before its target, and of a cyclic DAG is the empty list. -/
theorem get_topological_order_spec (dag : ExecutionDAG) (hwf : DagWellFormed dag) :
    (DagAcyclic dag →
        (get_topological_order dag).Perm (dagIds dag)
        ∧ ∀ e ∈ dag.edges, ∀ j,
            (get_topological_order dag).get? j = some e.to_node →
            ∃ i, i < j ∧ (get_topological_order dag).get? i = some e.from_node)
    ∧ (¬ DagAcyclic dag → get_topological_order dag = []) := by
  have hids := hwf.1
  have hWF := hwf.2
  have hadj : ∀ u, kahnAdj dag u
      = (dag.edges.filter fun e => e.from_node == u).map fun e => e.to_node := by
    intro u
    rw [kahnAdj, kahn_adj_fold (dagIds dag) dag.edges (fun e he => (hWF e he).1)]
    simp
  have hpost := kahnLoop_post dag.edges (dagIds dag) hWF (kahnAdj dag) hadj
      ((dagIds dag).length + dag.edges.length + 1) (kahnDeg dag) (kahnQueue dag) []
      (kahn_init dag hwf) (by simp; omega)
  set L := kahnLoop (kahnAdj dag) ((dagIds dag).length + dag.edges.length + 1)
      (kahnDeg dag) (kahnQueue dag) [] with hL
  obtain ⟨hsub, hnodup, hresp, hstuck⟩ := hpost
  have heq : get_topological_order dag
      = if L.length ≠ dag.nodes.length then [] else L := get_topological_order_eq dag
  have hlen_ids : (dagIds dag).length = dag.nodes.length := by
    rw [dagIds, List.length_map]
  constructor
  · intro hacyc
    have hall : ∀ x ∈ dagIds dag, x ∈ L := by
      intro x hx
      by_contra hxL
      exact stuck_cycle dag hWF L hstuck x hx hxL hacyc
    have hperm : L.Perm (dagIds dag) := by
      apply (List.subperm_of_subset hnodup hsub).perm_of_length_le
      exact (List.subperm_of_subset hids hall).length_le
    have hlenL : L.length = dag.nodes.length := by
      rw [hperm.length_eq, hlen_ids]
    have hres : get_topological_order dag = L := by
      rw [heq, if_neg (by omega)]
    rw [hres]
    exact ⟨hperm, hresp⟩
  · intro hnacyc
    rw [heq]
    by_cases hlenL : L.length ≠ dag.nodes.length
    · rw [if_pos hlenL]
    · exfalso
      push_neg at hlenL
      have hperm : L.Perm (dagIds dag) := by
        apply (List.subperm_of_subset hnodup hsub).perm_of_length_le
        omega
      have hmem : ∀ x ∈ dagIds dag, x ∈ L := fun x hx => hperm.mem_iff.mpr hx
      exact hnacyc (perm_resp_acyclic dag L hmem hresp hWF)


/-- witness DAG -/
def c9Dag : ExecutionDAG :=
  { nodes := [{ id := "n1", action := "transform", params := Json.null }]
    edges := []
    entry_node := "n1"
    exit_node := ["n1"] }

theorem c9Dag_wf : DagWellFormed c9Dag :=
  ⟨List.nodup_singleton "n1", fun e he => absurd he (List.not_mem_nil e)⟩

theorem c9Dag_acyclic : DagAcyclic c9Dag := by
  intro v h
  cases h with
  | single h1 =>
      obtain ⟨e, he, _⟩ := h1
      exact absurd he (List.not_mem_nil e)
  | tail _ h1 =>
      obtain ⟨e, he, _⟩ := h1
      exact absurd he (List.not_mem_nil e)

/-- C9 witness: the spec theorem applied to a concrete well-formed DAG. -/
theorem get_topological_order_spec_witness :
    DagWellFormed c9Dag ∧ (get_topological_order c9Dag).Perm (dagIds c9Dag) :=
  ⟨c9Dag_wf, ((get_topological_order_spec c9Dag c9Dag_wf).1 c9Dag_acyclic).1⟩


/-! ### C3 — the canonicalization behind `compute_hash`

`json.dumps(subset, sort_keys=True, ensure_ascii=False)` is called
without a `separators` argument, so Python's defaults `", "` and `": "`
apply and the canonical form contains a space after every comma and
colon.  The claim's "no extraneous whitespace" serialization is
`separators=(",", ":")`; the two differ, and so do their digests.  The
amended canonical form below spells out, independently of the `dumps`
interpreter, the sorted key order and the spaced separators. -/

/-- The rendered form of one node object, keys sorted
(`action < id < params`), spaced separators. -/
def nodeStr (n : DAGNode) : String :=
  "\x7b" ++ String.intercalate ", "
    ["\"action\": " ++ jsonQuote n.action,
     "\"id\": " ++ jsonQuote n.id,
     "\"params\": " ++ dumps true ", " ": " n.params] ++ "\x7d"

/-- The rendered form of one edge object, keys sorted
(`condition < from < to`), spaced separators. -/
def edgeStr (e : DAGEdge) : String :=
  "\x7b" ++ String.intercalate ", "
    ["\"condition\": " ++ (match e.condition with
                           | some c => jsonQuote c
                           | none => "null"),
     "\"from\": " ++ jsonQuote e.from_node,
     "\"to\": " ++ jsonQuote e.to_node] ++ "\x7d"

/-- The canonical-document skeleton: top-level keys in sorted order
(`execution_dag < jade_version < metadata < security < skill_id`),
inner keys sorted likewise, item separator `", "`, key separator
`": "`; the three symbolic lists are received already rendered. -/
def c3Shell (jv sid mn mv sb : String) (nodesR edgesR wlR : List String) : String :=
  "\x7b" ++ String.intercalate ", "
    ["\"execution_dag\": " ++ ("\x7b" ++ String.intercalate ", "
        ["\"edges\": " ++ ("[" ++ String.intercalate ", " edgesR ++ "]"),
         "\"nodes\": " ++ ("[" ++ String.intercalate ", " nodesR ++ "]")] ++ "\x7d"),
     "\"jade_version\": " ++ jsonQuote jv,
     "\"metadata\": " ++ ("\x7b" ++ String.intercalate ", "
        ["\"name\": " ++ jsonQuote mn,
         "\"version\": " ++ jsonQuote mv] ++ "\x7d"),
     "\"security\": " ++ ("\x7b" ++ String.intercalate ", "
        ["\"network_whitelist\": " ++ ("[" ++ String.intercalate ", " wlR ++ "]"),
         "\"sandbox_level\": " ++ jsonQuote sb] ++ "\x7d"),
     "\"skill_id\": " ++ jsonQuote sid] ++ "\x7d"

/-- The amended canonical serialization of the normalized subset. -/
def amendedCanonical (s : JadeSkill) : String :=
  c3Shell s.jade_version s.skill_id s.metadata.name s.metadata.version
    s.security.sandbox_level.value
    (s.execution_dag.nodes.map nodeStr)
    (s.execution_dag.edges.map edgeStr)
    (s.security.network_whitelist.map jsonQuote)

/-- The hash the claim describes: SHA-256 of the subset serialized with
keys sorted and NO whitespace (`separators=(",", ":")`). -/
def specCompactHash (s : JadeSkill) : String :=
  sha256Hex (utf8Bytes (dumps true "," ":" s.hashSubset))

theorem dumps_node (n : DAGNode) :
    dumps true ", " ": " (Json.obj
      [("id", Json.str n.id), ("action", Json.str n.action), ("params", n.params)])
    = nodeStr n := rfl

theorem dumps_edge (e : DAGEdge) :
    dumps true ", " ": " (Json.obj
      [("from", Json.str e.from_node), ("to", Json.str e.to_node),
       ("condition", match e.condition with
                     | some c => Json.str c
                     | none => Json.null)])
    = edgeStr e := by
  unfold edgeStr
  cases hc : e.condition with
  | none => rfl
  | some c => rfl

theorem dumpsList_nodes (l : List DAGNode) :
    dumpsList true ", " ": " (l.map fun n => Json.obj
      [("id", Json.str n.id), ("action", Json.str n.action), ("params", n.params)])
    = l.map nodeStr := by
  induction l with
  | nil => rfl
  | cons a t ih =>
      rw [List.map_cons, List.map_cons]
      show dumps true ", " ": " (Json.obj
          [("id", Json.str a.id), ("action", Json.str a.action), ("params", a.params)])
        :: dumpsList true ", " ": " (t.map fun n => Json.obj
          [("id", Json.str n.id), ("action", Json.str n.action), ("params", n.params)])
        = nodeStr a :: t.map nodeStr
      rw [ih, dumps_node a]

theorem dumpsList_edges (l : List DAGEdge) :
    dumpsList true ", " ": " (l.map fun e => Json.obj
      [("from", Json.str e.from_node), ("to", Json.str e.to_node),
       ("condition", match e.condition with
                     | some c => Json.str c
                     | none => Json.null)])
    = l.map edgeStr := by
  induction l with
  | nil => rfl
  | cons a t ih =>
      rw [List.map_cons, List.map_cons]
      show dumps true ", " ": " (Json.obj
          [("from", Json.str a.from_node), ("to", Json.str a.to_node),
           ("condition", match a.condition with
                         | some c => Json.str c
                         | none => Json.null)])
        :: dumpsList true ", " ": " (t.map fun e => Json.obj
          [("from", Json.str e.from_node), ("to", Json.str e.to_node),
           ("condition", match e.condition with
                         | some c => Json.str c
                         | none => Json.null)])
        = edgeStr a :: t.map edgeStr
      rw [ih, dumps_edge a]

theorem dumpsList_strs (l : List String) :
    dumpsList true ", " ": " (l.map Json.str) = l.map jsonQuote := by
  induction l with
  | nil => rfl
  | cons a t ih =>
      rw [List.map_cons, List.map_cons]
      show dumps true ", " ": " (Json.str a)
        :: dumpsList true ", " ": " (t.map Json.str) = jsonQuote a :: t.map jsonQuote
      rw [ih]
      rfl

theorem dumps_hashSubset_eq (s : JadeSkill) :
    dumps true ", " ": " s.hashSubset = amendedCanonical s := by
  have h0 : dumps true ", " ": " s.hashSubset
      = c3Shell s.jade_version s.skill_id s.metadata.name s.metadata.version
          s.security.sandbox_level.value
          (dumpsList true ", " ": " (s.execution_dag.nodes.map fun n => Json.obj
            [("id", Json.str n.id), ("action", Json.str n.action), ("params", n.params)]))
          (dumpsList true ", " ": " (s.execution_dag.edges.map fun e => Json.obj
            [("from", Json.str e.from_node), ("to", Json.str e.to_node),
             ("condition", match e.condition with
                           | some c => Json.str c
                           | none => Json.null)]))
          (dumpsList true ", " ": " (s.security.network_whitelist.map Json.str)) := rfl
  rw [h0, dumpsList_nodes, dumpsList_edges, dumpsList_strs]
  rfl

/-- C3: against the claim, `compute_hash` hashes the subset serialized
with keys sorted and the DEFAULT Python separators `", "` and `": "`
(no `separators` argument is passed in `models.py`), not a
whitespace-free serialization; the amended canonical string spells out
the sorted key order and spaced separators, and the hash depends only
on the normalized-subset components (all other fields excluded). -/
theorem compute_hash_canonicalization (s : JadeSkill) :
    JadeSkill.compute_hash s = sha256Hex (utf8Bytes (amendedCanonical s))
    ∧ ∀ t : JadeSkill,
        s.jade_version = t.jade_version → s.skill_id = t.skill_id →
        s.metadata.name = t.metadata.name → s.metadata.version = t.metadata.version →
        s.execution_dag.nodes = t.execution_dag.nodes →
        s.execution_dag.edges = t.execution_dag.edges →
        s.security.network_whitelist = t.security.network_whitelist →
        s.security.sandbox_level = t.security.sandbox_level →
        JadeSkill.compute_hash s = JadeSkill.compute_hash t := by
  constructor
  · rw [JadeSkill.compute_hash, dumps_hashSubset_eq]
  · intro t h1 h2 h3 h4 h5 h6 h7 h8
    rw [JadeSkill.compute_hash, JadeSkill.compute_hash,
        JadeSkill.hashSubset, JadeSkill.hashSubset, h1, h2, h3, h4, h5, h6, h7, h8]

/-- The concrete skill of the C3 counterexample. -/
def c3Skill : JadeSkill :=
  { jade_version := "1.0.0", skill_id := "c3_skill",
    metadata := { name := "C3", version := "1.0.0", description := "d",
                  author := "a", tags := [] },
    trigger := { type := .manual, conditions := [] },
    execution_dag := { nodes := [], edges := [], entry_node := "n",
                       exit_node := ["n"] },
    security := { network_whitelist := [], file_read_paths := [],
                  file_write_paths := [], max_execution_time_ms := 1000,
                  max_retries := 0, sandbox_level := .strict,
                  dangerous_patterns := [], env_whitelist := [] } }

set_option maxRecDepth 10000 in
set_option maxHeartbeats 1000000 in
/-- C3 counterexample: on a concrete skill, `compute_hash` differs from
the SHA-256 of the whitespace-free sorted-keys serialization that the
claim describes. -/
theorem compute_hash_not_compact :
    JadeSkill.compute_hash c3Skill ≠ specCompactHash c3Skill := by
  decide

end JadeGate
